import Mathlib

/-!
Shallow embedding of the `ingressroutes` controller
(`pkg/operator/controller/ingress-routes/controller.go`, the hash-label
variant of the controller) together with a model of its Kubernetes
client/cache collaborator.  Stateful code is embedded as explicit state
passing over a `World` record; every collaborator call is recorded in an
operation trace and may be made to fail through an explicit failure
schedule, so that error-propagation behaviour can be stated and proved.
-/

namespace ingressroutes

/-- Modelled from the spec: `util.Hash` (package `pkg/util`, not part of the
provided sources) is a deterministic, collision-resistant digest of its
input string, used only as a correlation key.  It is modelled as the
identity function, the simplest deterministic injective function. -/
def Hash (s : String) : String := s

/-- `namespacedName` from the source: `fmt.Sprintf("%s/%s", namespace, name)`. -/
def namespacedName (ns name : String) : String := ns ++ "/" ++ name

/-- The marker label key `componentRouteHashLabelKey` from the source. -/
def componentRouteHashLabelKey : String :=
  "ingress.operator.openshift.io/componentroutehash"

/-- Modelled from the spec: `operatorcontroller.OpenShiftConfigNamespace`
(not part of the provided sources) is the managed namespace in which
derived objects live; the e2e test pins it to "openshift-config". -/
def OpenShiftConfigNamespace : String := "openshift-config"

/-- `rbacv1.ServiceAccountKind`. -/
def ServiceAccountKind : String := "ServiceAccount"

/-- `configv1.SecretNameReference`. -/
structure SecretNameReference where
  Name : String
deriving DecidableEq, Repr

/-- `configv1.ComponentRouteSpec` (fields the controller reads). -/
structure ComponentRouteSpec where
  Namespace : String
  Name : String
  Hostname : String
  ServingCertKeyPairSecret : SecretNameReference
deriving DecidableEq, Repr

/-- `configv1.ComponentRouteStatus` (fields the controller reads). -/
structure ComponentRouteStatus where
  Namespace : String
  Name : String
  DefaultHostname : String
  ConsumingUsers : List String
  CurrentHostnames : List String
deriving DecidableEq, Repr

/-- `configv1.IngressSpec` (fields the controller reads). -/
structure IngressSpec where
  Domain : String
  AppsDomain : String
  ComponentRoutes : List ComponentRouteSpec
deriving DecidableEq, Repr

/-- `configv1.IngressStatus`. -/
structure IngressStatus where
  ComponentRoutes : List ComponentRouteStatus
deriving DecidableEq, Repr

/-- `configv1.Ingress`; the resource is cluster scoped, so its key is its name. -/
structure Ingress where
  Name : String
  Spec : IngressSpec
  Status : IngressStatus
deriving DecidableEq, Repr

/-- `rbacv1.PolicyRule` (fields the controller writes). -/
structure PolicyRule where
  Verbs : List String
  APIGroups : List String
  Resources : List String
  ResourceNames : List String
deriving DecidableEq, Repr

/-- `rbacv1.Role` with the `ObjectMeta` fields the controller uses inlined. -/
structure Role where
  Name : String
  GenerateName : String
  Namespace : String
  Labels : List (String × String)
  Rules : List PolicyRule
deriving DecidableEq, Repr

/-- `rbacv1.Subject` (fields the controller writes). -/
structure Subject where
  Kind : String
  Name : String
  APIGroup : String
deriving DecidableEq, Repr

/-- `rbacv1.RoleRef`. -/
structure RoleRef where
  Kind : String
  Name : String
  APIGroup : String
deriving DecidableEq, Repr

/-- `rbacv1.RoleBinding` with the `ObjectMeta` fields the controller uses inlined. -/
structure RoleBinding where
  Name : String
  Namespace : String
  Labels : List (String × String)
  Subjects : List Subject
  RoleRef : RoleRef
deriving DecidableEq, Repr

/-- The error classes distinguished by `k8s.io/apimachinery/pkg/api/errors`
as used by the controller. -/
inductive K8sErr where
  | notFound
  | alreadyExists
  | other (msg : String)
deriving DecidableEq, Repr

/-- `errors.IsNotFound`. -/
def K8sErr.IsNotFound : K8sErr → Bool
  | .notFound => true
  | _ => false

/-- `errors.IsAlreadyExists`. -/
def K8sErr.IsAlreadyExists : K8sErr → Bool
  | .alreadyExists => true
  | _ => false

/-- `sigs.k8s.io/controller-runtime/pkg/client` list options used by the
controller: `MatchingLabels`, `HasLabels` and `InNamespace`. -/
inductive ListOption where
  | MatchingLabels (ls : List (String × String))
  | HasLabels (ks : List String)
  | InNamespace (ns : String)
deriving DecidableEq, Repr

/-- Whether an object with the given labels living in namespace `ns`
satisfies one list option. -/
def labelsMatchOption (labels : List (String × String)) (ns : String) :
    ListOption → Bool
  | .MatchingLabels ls => ls.all (fun kv => labels.lookup kv.1 == some kv.2)
  | .HasLabels ks => ks.all (fun k => (labels.lookup k).isSome)
  | .InNamespace n => ns == n

/-- Whether an object satisfies every option of a list query. -/
def matchesOptions (labels : List (String × String)) (ns : String)
    (opts : List ListOption) : Bool :=
  opts.all (labelsMatchOption labels ns)

/-- One collaborator call, as recorded in the reconciler's operation trace. -/
inductive Op where
  | getIngress (name : String)
  | listRoles (opts : List ListOption)
  | listRoleBindings (opts : List ListOption)
  | createRole (r : Role)
  | createRoleBinding (b : RoleBinding)
  | updateRole (r : Role)
  | updateRoleBinding (b : RoleBinding)
  | deleteRole (name ns : String)
  | deleteRoleBinding (name ns : String)
deriving DecidableEq, Repr

/-- `true` on the create and delete calls; used to state that a run makes
no create or delete calls. -/
def Op.isCreateOrDelete : Op → Bool
  | .createRole _ | .createRoleBinding _ | .deleteRole _ _ | .deleteRoleBinding _ _ => true
  | _ => false

/-- The collaborator state: cluster contents, a counter used to assign
server-generated names for `GenerateName` creates, a running call counter
and a failure-injection schedule mapping call indices to injected errors.
An empty schedule models a collaborator that never fails. -/
structure World where
  ingresses : List Ingress
  roles : List Role
  roleBindings : List RoleBinding
  counter : Nat
  callCount : Nat
  failures : List (Nat × K8sErr)
deriving DecidableEq, Repr

/-- The error (if any) injected for the next collaborator call. -/
def World.nextFailure (w : World) : Option K8sErr :=
  w.failures.lookup w.callCount

/-- Advance the call counter after a collaborator call. -/
def World.step (w : World) : World := { w with callCount := w.callCount + 1 }

/-- `r.cache.Get` on the cluster ingress resource (cluster scoped, keyed by name). -/
def getIngress (w : World) (name : String) : World × Except K8sErr Ingress :=
  match w.nextFailure with
  | some e => (w.step, .error e)
  | none =>
    match w.ingresses.find? (fun i => i.Name == name) with
    | some i => (w.step, .ok i)
    | none => (w.step, .error .notFound)

/-- `r.cache.List` on roles: returns the roles matching every list option,
in cluster-list order. -/
def listRoles (w : World) (opts : List ListOption) :
    World × Except K8sErr (List Role) :=
  match w.nextFailure with
  | some e => (w.step, .error e)
  | none =>
    (w.step, .ok (w.roles.filter (fun r => matchesOptions r.Labels r.Namespace opts)))

/-- `r.cache.List` on role bindings. -/
def listRoleBindings (w : World) (opts : List ListOption) :
    World × Except K8sErr (List RoleBinding) :=
  match w.nextFailure with
  | some e => (w.step, .error e)
  | none =>
    (w.step, .ok (w.roleBindings.filter (fun b => matchesOptions b.Labels b.Namespace opts)))

/-- `r.client.Create` on a role: the API server assigns a name from
`GenerateName` when no name is set, rejects duplicate names with
`AlreadyExists`, and otherwise appends the object. -/
def createRole (w : World) (r : Role) : World × Except K8sErr Role :=
  match w.nextFailure with
  | some e => (w.step, .error e)
  | none =>
    let stored := if r.Name == "" then
        { r with Name := r.GenerateName ++ toString w.counter } else r
    if w.roles.any (fun r0 => r0.Name == stored.Name && r0.Namespace == stored.Namespace) then
      (w.step, .error .alreadyExists)
    else if r.Name == "" then
      ({ w with roles := w.roles ++ [stored], counter := w.counter + 1,
                callCount := w.callCount + 1 }, .ok stored)
    else
      ({ w with roles := w.roles ++ [stored], callCount := w.callCount + 1 }, .ok stored)

/-- `r.client.Create` on a role binding. -/
def createRoleBinding (w : World) (b : RoleBinding) :
    World × Except K8sErr RoleBinding :=
  match w.nextFailure with
  | some e => (w.step, .error e)
  | none =>
    if w.roleBindings.any (fun b0 => b0.Name == b.Name && b0.Namespace == b.Namespace) then
      (w.step, .error .alreadyExists)
    else
      ({ w with roleBindings := w.roleBindings ++ [b],
                callCount := w.callCount + 1 }, .ok b)

/-- `r.client.Update` on a role: replaces the object with the same
name and namespace, `NotFound` if there is none. -/
def updateRole (w : World) (r : Role) : World × Except K8sErr Unit :=
  match w.nextFailure with
  | some e => (w.step, .error e)
  | none =>
    if w.roles.any (fun r0 => r0.Name == r.Name && r0.Namespace == r.Namespace) then
      let newRoles := w.roles.map (fun r0 =>
        if r0.Name == r.Name && r0.Namespace == r.Namespace then r else r0)
      ({ w with roles := newRoles, callCount := w.callCount + 1 }, .ok ())
    else (w.step, .error .notFound)

/-- `r.client.Update` on a role binding. -/
def updateRoleBinding (w : World) (b : RoleBinding) :
    World × Except K8sErr Unit :=
  match w.nextFailure with
  | some e => (w.step, .error e)
  | none =>
    if w.roleBindings.any (fun b0 => b0.Name == b.Name && b0.Namespace == b.Namespace) then
      let newBindings := w.roleBindings.map (fun b0 =>
        if b0.Name == b.Name && b0.Namespace == b.Namespace then b else b0)
      ({ w with roleBindings := newBindings, callCount := w.callCount + 1 }, .ok ())
    else (w.step, .error .notFound)

/-- `r.client.Delete` on a role, keyed by name and namespace. -/
def deleteRole (w : World) (name ns : String) : World × Except K8sErr Unit :=
  match w.nextFailure with
  | some e => (w.step, .error e)
  | none =>
    if w.roles.any (fun r0 => r0.Name == name && r0.Namespace == ns) then
      let newRoles := w.roles.filter (fun r0 => !(r0.Name == name && r0.Namespace == ns))
      ({ w with roles := newRoles, callCount := w.callCount + 1 }, .ok ())
    else (w.step, .error .notFound)

/-- `r.client.Delete` on a role binding. -/
def deleteRoleBinding (w : World) (name ns : String) :
    World × Except K8sErr Unit :=
  match w.nextFailure with
  | some e => (w.step, .error e)
  | none =>
    if w.roleBindings.any (fun b0 => b0.Name == name && b0.Namespace == ns) then
      let newBindings := w.roleBindings.filter (fun b0 => !(b0.Name == name && b0.Namespace == ns))
      ({ w with roleBindings := newBindings, callCount := w.callCount + 1 }, .ok ())
    else (w.step, .error .notFound)

/-- `aggregatedComponentRoute` from the source. -/
structure aggregatedComponentRoute where
  Name : String
  Hash : String
  ServingCertificateName : String
  ConsumingUsers : List String
deriving DecidableEq, Repr

/-- `newAggregatedComponentRoute` from the source. -/
def newAggregatedComponentRoute (spec : ComponentRouteSpec)
    (status : ComponentRouteStatus) : aggregatedComponentRoute :=
  { Name := spec.Name
    Hash := Hash (namespacedName spec.Namespace spec.Name)
    ServingCertificateName := spec.ServingCertKeyPairSecret.Name
    ConsumingUsers := status.ConsumingUsers }

/-- Assignment `m[k] = v` on a Go map modelled as an association list that
is only ever read through first-match `List.lookup`: prepending the new
entry shadows any older entry for the same key, which is exactly Go's
last-assignment-wins lookup semantics (the controller never iterates this
map, it only looks keys up). -/
def mapAssign (m : List (String × ComponentRouteStatus)) (k : String)
    (v : ComponentRouteStatus) : List (String × ComponentRouteStatus) :=
  (k, v) :: m

/-- `intersectingComponentRoutes` from the source: build a hash-keyed map
from the status list, then walk the spec list in order emitting a target
for every spec entry whose hash is in the map. -/
def intersectingComponentRoutes (componentRouteSpecs : List ComponentRouteSpec)
    (componentRouteStatuses : List ComponentRouteStatus) :
    List aggregatedComponentRoute :=
  let m := componentRouteStatuses.foldl (fun m s =>
    mapAssign m (Hash (namespacedName s.Namespace s.Name)) s) []
  componentRouteSpecs.foldl (fun acc d =>
    match m.lookup (Hash (namespacedName d.Namespace d.Name)) with
    | some s => acc ++ [newAggregatedComponentRoute d s]
    | none => acc) []

/-- `Config` from the source. -/
structure Config where
  SecretNamespace : String
deriving DecidableEq, Repr

/-- The list options of `componentRouteResources`, which depend only on the
target's correlation hash. -/
def crOptions (h : String) : List ListOption :=
  [.MatchingLabels [(componentRouteHashLabelKey, h)],
   .InNamespace OpenShiftConfigNamespace]

/-- `componentRouteResources` from the source. -/
def componentRouteResources (componentRoute : aggregatedComponentRoute) :
    List ListOption :=
  crOptions componentRoute.Hash

/-- `allComponentRouteResources` from the source. -/
def allComponentRouteResources : List ListOption :=
  [.HasLabels [componentRouteHashLabelKey],
   .InNamespace OpenShiftConfigNamespace]

/-- The role literal built at the top of `ensureServiceCertKeyPairSecretRole`. -/
def desiredRole (cfg : Config) (componentRoute : aggregatedComponentRoute) : Role :=
  { Name := ""
    GenerateName := componentRoute.Name ++ "-"
    Namespace := cfg.SecretNamespace
    Labels := [(componentRouteHashLabelKey, componentRoute.Hash)]
    Rules := [{ Verbs := ["get", "list", "watch"]
                APIGroups := [""]
                Resources := ["secrets"]
                ResourceNames := [componentRoute.ServingCertificateName] }] }

/-- The role-binding literal built in `ensureServiceCertKeyPairSecretRoleBinding`. -/
def desiredRoleBinding (cfg : Config) (componentRoute : aggregatedComponentRoute)
    (roleName : String) : RoleBinding :=
  { Name := roleName
    Namespace := cfg.SecretNamespace
    Labels := [(componentRouteHashLabelKey, componentRoute.Hash)]
    Subjects := componentRoute.ConsumingUsers.map (fun serviceAccountName =>
      { Kind := ServiceAccountKind, Name := serviceAccountName, APIGroup := "" })
    RoleRef := { Kind := "Role", Name := roleName,
                 APIGroup := "rbac.authorization.k8s.io" } }

/-- The duplicate-deletion loop of `ensureServiceCertKeyPairSecretRole`
(`for i, curRole := range roleList.Items`, skipping index 0): delete each
listed duplicate, ignoring `NotFound`, aborting on any other error. -/
def deleteRoleDups : List Role → World → World × List Op × Except K8sErr Unit
  | [], w => (w, [], .ok ())
  | item :: rest, w =>
    let p := deleteRole w item.Name item.Namespace
    let op := Op.deleteRole item.Name item.Namespace
    match p.2 with
    | .error e =>
      if !e.IsNotFound then (p.1, [op], .error e)
      else
        let q := deleteRoleDups rest p.1
        (q.1, op :: q.2.1, q.2.2)
    | .ok _ =>
      let q := deleteRoleDups rest p.1
      (q.1, op :: q.2.1, q.2.2)

/-- The duplicate-deletion loop of `ensureServiceCertKeyPairSecretRoleBinding`. -/
def deleteRoleBindingDups : List RoleBinding → World → World × List Op × Except K8sErr Unit
  | [], w => (w, [], .ok ())
  | item :: rest, w =>
    let p := deleteRoleBinding w item.Name item.Namespace
    let op := Op.deleteRoleBinding item.Name item.Namespace
    match p.2 with
    | .error e =>
      if !e.IsNotFound then (p.1, [op], .error e)
      else
        let q := deleteRoleBindingDups rest p.1
        (q.1, op :: q.2.1, q.2.2)
    | .ok _ =>
      let q := deleteRoleBindingDups rest p.1
      (q.1, op :: q.2.1, q.2.2)

/-- `ensureServiceCertKeyPairSecretRole` from the source: list the roles
matching the target's correlation label; create the desired role when none
match; otherwise delete every match but the first and overwrite the first
match's rules with the desired rules.  Returns the name of the canonical
role.  The `owner` argument is accepted and unused, as in the source. -/
def ensureServiceCertKeyPairSecretRole (cfg : Config) (owner : Ingress)
    (componentRoute : aggregatedComponentRoute) (w : World) :
    World × List Op × Except K8sErr String :=
  let role := desiredRole cfg componentRoute
  let listOp := Op.listRoles (componentRouteResources componentRoute)
  let p := listRoles w (componentRouteResources componentRoute)
  match p.2 with
  | .error e => (p.1, [listOp], .error e)
  | .ok items =>
    match items with
    | [] =>
      let c := createRole p.1 role
      match c.2 with
      | .error e => (c.1, [listOp, Op.createRole role], .error e)
      | .ok created => (c.1, [listOp, Op.createRole role], .ok created.Name)
    | first :: rest =>
      let d := deleteRoleDups rest p.1
      match d.2.2 with
      | .error e => (d.1, listOp :: d.2.1, .error e)
      | .ok _ =>
        let existingRole := { first with Rules := role.Rules }
        let u := updateRole d.1 existingRole
        match u.2 with
        | .error e => (u.1, listOp :: d.2.1 ++ [Op.updateRole existingRole], .error e)
        | .ok _ => (u.1, listOp :: d.2.1 ++ [Op.updateRole existingRole], .ok existingRole.Name)

/-- `ensureServiceCertKeyPairSecretRoleBinding` from the source: list the
role bindings matching the target's correlation label; create the desired
binding (named after, and referring to, `roleName`) when none match;
otherwise delete every match but the first and overwrite the first match's
subjects and role reference. -/
def ensureServiceCertKeyPairSecretRoleBinding (cfg : Config) (owner : Ingress)
    (componentRoute : aggregatedComponentRoute) (roleName : String) (w : World) :
    World × List Op × Except K8sErr Unit :=
  let roleBinding := desiredRoleBinding cfg componentRoute roleName
  let listOp := Op.listRoleBindings (componentRouteResources componentRoute)
  let p := listRoleBindings w (componentRouteResources componentRoute)
  match p.2 with
  | .error e => (p.1, [listOp], .error e)
  | .ok items =>
    match items with
    | [] =>
      let c := createRoleBinding p.1 roleBinding
      match c.2 with
      | .error e => (c.1, [listOp, Op.createRoleBinding roleBinding], .error e)
      | .ok _ => (c.1, [listOp, Op.createRoleBinding roleBinding], .ok ())
    | first :: rest =>
      let d := deleteRoleBindingDups rest p.1
      match d.2.2 with
      | .error e => (d.1, listOp :: d.2.1, .error e)
      | .ok _ =>
        let existingRoleBinding :=
          { first with Subjects := roleBinding.Subjects, RoleRef := roleBinding.RoleRef }
        let u := updateRoleBinding d.1 existingRoleBinding
        match u.2 with
        | .error e =>
          (u.1, listOp :: d.2.1 ++ [Op.updateRoleBinding existingRoleBinding], .error e)
        | .ok _ =>
          (u.1, listOp :: d.2.1 ++ [Op.updateRoleBinding existingRoleBinding], .ok ())

/-- The Go error message of the label-integrity fault in
`cleanupOrphanedResources`. -/
def labelIntegrityErr : K8sErr :=
  .other "Unable to find expected componentRoute hash label"

/-- The role loop of `cleanupOrphanedResources`: read each listed item's
correlation-hash label (a missing label is a hard error), and delete the
item when its hash is not among the active hashes, ignoring `NotFound`. -/
def cleanupRoleItems (existingHashes : List String) :
    List Role → World → World × List Op × Except K8sErr Unit
  | [], w => (w, [], .ok ())
  | item :: rest, w =>
    match item.Labels.lookup componentRouteHashLabelKey with
    | none => (w, [], .error labelIntegrityErr)
    | some expectedHash =>
      if existingHashes.contains expectedHash then
        cleanupRoleItems existingHashes rest w
      else
        let p := deleteRole w item.Name item.Namespace
        let op := Op.deleteRole item.Name item.Namespace
        match p.2 with
        | .error e =>
          if !e.IsNotFound then (p.1, [op], .error e)
          else
            let q := cleanupRoleItems existingHashes rest p.1
            (q.1, op :: q.2.1, q.2.2)
        | .ok _ =>
          let q := cleanupRoleItems existingHashes rest p.1
          (q.1, op :: q.2.1, q.2.2)

/-- The role-binding loop of `cleanupOrphanedResources`. -/
def cleanupRoleBindingItems (existingHashes : List String) :
    List RoleBinding → World → World × List Op × Except K8sErr Unit
  | [], w => (w, [], .ok ())
  | item :: rest, w =>
    match item.Labels.lookup componentRouteHashLabelKey with
    | none => (w, [], .error labelIntegrityErr)
    | some expectedHash =>
      if existingHashes.contains expectedHash then
        cleanupRoleBindingItems existingHashes rest w
      else
        let p := deleteRoleBinding w item.Name item.Namespace
        let op := Op.deleteRoleBinding item.Name item.Namespace
        match p.2 with
        | .error e =>
          if !e.IsNotFound then (p.1, [op], .error e)
          else
            let q := cleanupRoleBindingItems existingHashes rest p.1
            (q.1, op :: q.2.1, q.2.2)
        | .ok _ =>
          let q := cleanupRoleBindingItems existingHashes rest p.1
          (q.1, op :: q.2.1, q.2.2)

/-- `cleanupOrphanedResources` from the source.  Note that the source
discards the error returned by both `r.cache.List` calls
(`r.cache.List(context.TODO(), roleList, ...)` with no `if err`), so a
failed list leaves the item slice empty and the loop simply runs over
nothing; the embedding mirrors that by dropping the error. -/
def cleanupOrphanedResources (componentRoutes : List aggregatedComponentRoute)
    (w : World) : World × List Op × Except K8sErr Unit :=
  let existingHashes := componentRoutes.map (fun cr => cr.Hash)
  let p := listRoles w allComponentRouteResources
  let items := match p.2 with
    | .ok l => l
    | .error _ => []
  let q := cleanupRoleItems existingHashes items p.1
  let roleOps := Op.listRoles allComponentRouteResources :: q.2.1
  match q.2.2 with
  | .error e => (q.1, roleOps, .error e)
  | .ok _ =>
    let p2 := listRoleBindings q.1 allComponentRouteResources
    let items2 := match p2.2 with
      | .ok l => l
      | .error _ => []
    let q2 := cleanupRoleBindingItems existingHashes items2 p2.1
    (q2.1, roleOps ++ Op.listRoleBindings allComponentRouteResources :: q2.2.1, q2.2.2)

/-- `reconcile.Result` from controller-runtime (the `Requeue` field). -/
structure ReconcileResult where
  Requeue : Bool
deriving DecidableEq, Repr

/-- The per-target loop in `Reconcile`: for each active target, converge
the role, then the role binding (passing the role name the role step
returned), aborting on the first error. -/
def ensureAll (cfg : Config) (ingress : Ingress) :
    List aggregatedComponentRoute → World → World × List Op × Except K8sErr Unit
  | [], w => (w, [], .ok ())
  | componentRoute :: rest, w =>
    let p := ensureServiceCertKeyPairSecretRole cfg ingress componentRoute w
    match p.2.2 with
    | .error e => (p.1, p.2.1, .error e)
    | .ok roleName =>
      let q := ensureServiceCertKeyPairSecretRoleBinding cfg ingress componentRoute roleName p.1
      match q.2.2 with
      | .error e => (q.1, p.2.1 ++ q.2.1, .error e)
      | .ok _ =>
        let r := ensureAll cfg ingress rest q.1
        (r.1, p.2.1 ++ q.2.1 ++ r.2.1, r.2.2)

/-- `Reconcile` from the source: fetch the ingress (NotFound is a no-op
success, any other fetch error aborts); intersect spec and status
component routes; converge role and role binding per target; finally
garbage-collect orphaned derived objects.  Errors after the fetch request
a requeue.  (The Go code wraps these errors in `fmt.Errorf` messages; the
embedding propagates the underlying error value.) -/
def Reconcile (cfg : Config) (requestName : String) (w : World) :
    World × List Op × ReconcileResult × Option K8sErr :=
  let g := getIngress w requestName
  let gop := Op.getIngress requestName
  match g.2 with
  | .error e =>
    if e.IsNotFound then (g.1, [gop], ⟨false⟩, none)
    else (g.1, [gop], ⟨false⟩, some e)
  | .ok ingress =>
    let componentRoutes :=
      intersectingComponentRoutes ingress.Spec.ComponentRoutes ingress.Status.ComponentRoutes
    let pe := ensureAll cfg ingress componentRoutes g.1
    match pe.2.2 with
    | .error e => (pe.1, gop :: pe.2.1, ⟨true⟩, some e)
    | .ok _ =>
      let c := cleanupOrphanedResources componentRoutes pe.1
      match c.2.2 with
      | .error e => (c.1, gop :: pe.2.1 ++ c.2.1, ⟨true⟩, some e)
      | .ok _ => (c.1, gop :: pe.2.1 ++ c.2.1, ⟨false⟩, none)

/-! ### The intersection, characterised -/

/-- The last status entry of the list whose correlation key equals `h`
(Go-map assignment is last-one-wins). -/
def lastMatchStatus (statuses : List ComponentRouteStatus) (h : String) :
    Option ComponentRouteStatus :=
  statuses.foldl (fun acc s =>
    if Hash (namespacedName s.Namespace s.Name) == h then some s else acc) none

/-- Whether a status entry has the same `(namespace, name)` identity as a
spec entry. -/
def sameIdentity (d : ComponentRouteSpec) (s : ComponentRouteStatus) : Bool :=
  s.Namespace == d.Namespace && s.Name == d.Name

/-- The last status entry sharing a spec entry's `(namespace, name)` identity. -/
def lastIdentityMatch (statuses : List ComponentRouteStatus)
    (d : ComponentRouteSpec) : Option ComponentRouteStatus :=
  statuses.foldl (fun acc s => if sameIdentity d s then some s else acc) none

/-- A string with no `/` character; Kubernetes namespace names satisfy this,
and it makes `namespacedName` injective. -/
def slashFree (s : String) : Prop := ¬ ('/' ∈ s.data)

instance (s : String) : Decidable (slashFree s) := by
  unfold slashFree; infer_instance

theorem lookup_mapAssign (m : List (String × ComponentRouteStatus))
    (k k' : String) (v : ComponentRouteStatus) :
    (mapAssign m k v).lookup k' = if k' == k then some v else m.lookup k' := by
  unfold mapAssign
  by_cases h : k' = k
  · subst h; simp [List.lookup]
  · have h' : (k' == k) = false := by simp [h]
    simp [List.lookup, h', h]

/-- `x` when it is `some`, `y` otherwise. -/
def keepSome {α : Type} (x y : Option α) : Option α :=
  match x with
  | some a => some a
  | none => y

@[simp] theorem keepSome_some {α : Type} (a : α) (y : Option α) :
    keepSome (some a) y = some a := rfl

@[simp] theorem keepSome_none {α : Type} (y : Option α) :
    keepSome none y = y := rfl

/-- Folding a keep-last update over a list, starting from an accumulator. -/
theorem foldl_keepLast {α : Type} (p : α → Bool) (l : List α) (acc : Option α) :
    l.foldl (fun acc s => if p s then some s else acc) acc =
      keepSome (l.foldl (fun acc s => if p s then some s else acc) none) acc := by
  induction l generalizing acc with
  | nil => simp
  | cons s t ih =>
    simp only [List.foldl_cons]
    by_cases hp : p s
    · simp only [hp, if_true]
      rw [ih (some s)]
      cases t.foldl (fun acc s => if p s then some s else acc) none <;> rfl
    · simp only [hp, Bool.false_eq_true, if_false]
      rw [ih acc]

theorem buildMap_lookup (statuses : List ComponentRouteStatus)
    (m0 : List (String × ComponentRouteStatus)) (h : String) :
    (statuses.foldl (fun m s =>
        mapAssign m (Hash (namespacedName s.Namespace s.Name)) s) m0).lookup h =
      keepSome (lastMatchStatus statuses h) (m0.lookup h) := by
  induction statuses generalizing m0 with
  | nil => simp [lastMatchStatus]
  | cons s t ih =>
    have hcons : lastMatchStatus (s :: t) h =
        keepSome (lastMatchStatus t h)
          (if Hash (namespacedName s.Namespace s.Name) == h then some s else none) := by
      unfold lastMatchStatus
      simp only [List.foldl_cons]
      exact foldl_keepLast (fun x => Hash (namespacedName x.Namespace x.Name) == h) t
        (if Hash (namespacedName s.Namespace s.Name) == h then some s else none)
    rw [List.foldl_cons, ih, hcons]
    cases hl : lastMatchStatus t h with
    | some s' => rfl
    | none =>
      rw [lookup_mapAssign]
      by_cases he : h = Hash (namespacedName s.Namespace s.Name)
      · simp [he]
      · have h1 : (h == Hash (namespacedName s.Namespace s.Name)) = false := by simp [he]
        have h2 : (Hash (namespacedName s.Namespace s.Name) == h) = false := by
          simp only [beq_eq_false_iff_ne, ne_eq]
          exact fun hx => he hx.symm
        simp [h1, h2]

theorem foldl_emit (f : ComponentRouteSpec → Option ComponentRouteStatus)
    (specs : List ComponentRouteSpec) (acc : List aggregatedComponentRoute) :
    specs.foldl (fun acc d =>
        match f d with
        | some s => acc ++ [newAggregatedComponentRoute d s]
        | none => acc) acc =
      acc ++ specs.filterMap (fun d => (f d).map (newAggregatedComponentRoute d)) := by
  induction specs generalizing acc with
  | nil => simp
  | cons d t ih =>
    simp only [List.foldl_cons, List.filterMap_cons]
    cases hf : f d with
    | some s => rw [ih]; simp
    | none => rw [ih]; simp

/-- Master characterisation of `intersectingComponentRoutes`: the output is
the desired list, in order, restricted to entries whose correlation key has
a match in the observed list, each combined with the last matching observed
entry. -/
theorem intersect_characterisation (D : List ComponentRouteSpec)
    (S : List ComponentRouteStatus) :
    intersectingComponentRoutes D S =
      D.filterMap (fun d =>
        (lastMatchStatus S (Hash (namespacedName d.Namespace d.Name))).map
          (newAggregatedComponentRoute d)) := by
  unfold intersectingComponentRoutes
  have hm : ∀ d : ComponentRouteSpec,
      (S.foldl (fun m s =>
        mapAssign m (Hash (namespacedName s.Namespace s.Name)) s) []).lookup
          (Hash (namespacedName d.Namespace d.Name)) =
        lastMatchStatus S (Hash (namespacedName d.Namespace d.Name)) := by
    intro d
    rw [buildMap_lookup]
    cases lastMatchStatus S (Hash (namespacedName d.Namespace d.Name)) <;> simp [List.lookup]
  calc D.foldl (fun acc d =>
        match (S.foldl (fun m s =>
          mapAssign m (Hash (namespacedName s.Namespace s.Name)) s) []).lookup
            (Hash (namespacedName d.Namespace d.Name)) with
        | some s => acc ++ [newAggregatedComponentRoute d s]
        | none => acc) []
      = D.foldl (fun acc d =>
        match lastMatchStatus S (Hash (namespacedName d.Namespace d.Name)) with
        | some s => acc ++ [newAggregatedComponentRoute d s]
        | none => acc) [] := by
        congr 1
        funext acc d
        rw [hm d]
    _ = _ := by
        rw [foldl_emit (fun d =>
          lastMatchStatus S (Hash (namespacedName d.Namespace d.Name))) D []]
        simp

theorem sep_append_inj (a1 : List Char) : ∀ (a2 b1 b2 : List Char),
    '/' ∉ a1 → '/' ∉ a2 → a1 ++ '/' :: b1 = a2 ++ '/' :: b2 →
    a1 = a2 ∧ b1 = b2 := by
  induction a1 with
  | nil =>
    intro a2 b1 b2 _ h2 h
    cases a2 with
    | nil => simpa using h
    | cons c t =>
      simp only [List.nil_append, List.cons_append, List.cons.injEq] at h
      exact absurd (h.1 ▸ List.mem_cons_self c t) h2
  | cons c t ih =>
    intro a2 b1 b2 h1 h2 h
    cases a2 with
    | nil =>
      simp only [List.cons_append, List.nil_append, List.cons.injEq] at h
      exact absurd (h.1 ▸ List.mem_cons_self c t) h1
    | cons c' t' =>
      simp only [List.cons_append, List.cons.injEq] at h
      have hm : '/' ∉ t := fun hx => h1 (List.mem_cons_of_mem c hx)
      have hm' : '/' ∉ t' := fun hx => h2 (List.mem_cons_of_mem c' hx)
      obtain ⟨he, hb⟩ := ih t' b1 b2 hm hm' h.2
      exact ⟨by rw [h.1, he], hb⟩

/-- With slash-free namespaces, `namespacedName` is injective: the
correlation key determines the `(namespace, name)` identity. -/
theorem namespacedName_inj {ns1 ns2 : String} (n1 n2 : String)
    (h1 : slashFree ns1) (h2 : slashFree ns2) :
    namespacedName ns1 n1 = namespacedName ns2 n2 ↔ ns1 = ns2 ∧ n1 = n2 := by
  constructor
  · intro h
    have hd : ns1.data ++ '/' :: n1.data = ns2.data ++ '/' :: n2.data := by
      have := congrArg String.data h
      simpa [namespacedName, String.data_append] using this
    obtain ⟨ha, hb⟩ := sep_append_inj ns1.data ns2.data n1.data n2.data h1 h2 hd
    exact ⟨String.ext ha, String.ext hb⟩
  · rintro ⟨rfl, rfl⟩; rfl

/-- With slash-free namespaces throughout the observed list, the
hash-keyed last match is the identity-keyed last match. -/
theorem lastMatchStatus_eq_lastIdentityMatch (S : List ComponentRouteStatus)
    (d : ComponentRouteSpec) (hd : slashFree d.Namespace)
    (hS : ∀ s ∈ S, slashFree s.Namespace) :
    lastMatchStatus S (Hash (namespacedName d.Namespace d.Name)) =
      lastIdentityMatch S d := by
  unfold lastMatchStatus lastIdentityMatch
  induction S with
  | nil => rfl
  | cons s t ih =>
    have hs : slashFree s.Namespace := hS s (List.mem_cons_self s t)
    have ht : ∀ x ∈ t, slashFree x.Namespace := fun x hx => hS x (List.mem_cons_of_mem s hx)
    simp only [List.foldl_cons]
    have harg : (Hash (namespacedName s.Namespace s.Name) ==
          Hash (namespacedName d.Namespace d.Name)) = sameIdentity d s := by
      by_cases he : s.Namespace = d.Namespace ∧ s.Name = d.Name
      · have : namespacedName s.Namespace s.Name = namespacedName d.Namespace d.Name := by
          rw [he.1, he.2]
        simp [sameIdentity, Hash, this, he.1, he.2]
      · have hne : namespacedName s.Namespace s.Name ≠ namespacedName d.Namespace d.Name :=
          fun hx => he ((namespacedName_inj s.Name d.Name hs hd).mp hx)
        have hid : sameIdentity d s = false := by
          unfold sameIdentity
          rcases not_and_or.mp he with hx | hx
          · simp [hx]
          · simp [hx]
        simp [Hash, hne, hid]
    rw [harg]
    rw [foldl_keepLast (fun x => Hash (namespacedName x.Namespace x.Name) ==
          Hash (namespacedName d.Namespace d.Name)) t
        (if sameIdentity d s then some s else none)]
    rw [foldl_keepLast (sameIdentity d) t (if sameIdentity d s then some s else none)]
    rw [ih ht]

/-- The keep-last fold leaves the accumulator untouched when nothing matches. -/
theorem foldl_keepLast_all_false {α : Type} (p : α → Bool) (l : List α)
    (acc : Option α) (hall : ∀ x ∈ l, p x = false) :
    l.foldl (fun acc s => if p s then some s else acc) acc = acc := by
  induction l generalizing acc with
  | nil => rfl
  | cons y u ih =>
    simp only [List.foldl_cons, hall y (List.mem_cons_self y u), Bool.false_eq_true, if_false]
    exact ih acc (fun x hx => hall x (List.mem_cons_of_mem y hx))

/-- When no two observed entries share an identity, the last identity match
is the first (unique) identity match. -/
theorem lastIdentityMatch_eq_find (S : List ComponentRouteStatus)
    (d : ComponentRouteSpec) :
    (S.map (fun s => (s.Namespace, s.Name))).Nodup →
    lastIdentityMatch S d = S.find? (sameIdentity d) := by
  unfold lastIdentityMatch
  induction S with
  | nil => intro _; rfl
  | cons s t ih =>
    intro hnd
    rw [List.map_cons, List.nodup_cons] at hnd
    simp only [List.foldl_cons]
    by_cases hp : sameIdentity d s
    · simp only [hp, if_true]
      have hall : ∀ x ∈ t, sameIdentity d x = false := by
        intro x hx
        by_cases hxp : sameIdentity d x
        · exfalso
          apply hnd.1
          have h1 : x.Namespace = s.Namespace ∧ x.Name = s.Name := by
            unfold sameIdentity at hp hxp
            simp only [Bool.and_eq_true, beq_iff_eq] at hp hxp
            exact ⟨hxp.1.trans hp.1.symm, hxp.2.trans hp.2.symm⟩
          have hmem : (x.Namespace, x.Name) ∈ t.map (fun s => (s.Namespace, s.Name)) :=
            List.mem_map_of_mem _ hx
          rwa [h1.1, h1.2] at hmem
        · exact Bool.eq_false_iff.mpr hxp
      rw [foldl_keepLast_all_false (sameIdentity d) t (some s) hall,
        List.find?_cons_of_pos t hp]
    · have hp' : sameIdentity d s = false := Bool.eq_false_iff.mpr hp
      simp only [hp', Bool.false_eq_true, if_false]
      rw [ih hnd.2, List.find?_cons_of_neg t hp]

/-! ### Claim C1 and claim C7 -/

/-- C1: for every desired list `D` and observed list `S` (with well-formed,
slash-free namespaces, and no two observed entries sharing an identity, so
that "the matching s" is well defined), `intersectingComponentRoutes`
returns exactly the targets for the entries `d` of `D` for which some
`s ∈ S` shares the same `(namespace, name)` identity, each target
combining `d`'s serving-secret name with the matching `s`'s
`consumingUsers` (that is what `newAggregatedComponentRoute` builds);
entries present in only one of the lists produce no target, and the output
order follows the order of `D`. -/
theorem C1_intersection_correctness (D : List ComponentRouteSpec)
    (S : List ComponentRouteStatus)
    (hD : ∀ d ∈ D, slashFree d.Namespace)
    (hS : ∀ s ∈ S, slashFree s.Namespace)
    (hnd : (S.map (fun s => (s.Namespace, s.Name))).Nodup) :
    intersectingComponentRoutes D S =
      D.filterMap (fun d =>
        (S.find? (sameIdentity d)).map (newAggregatedComponentRoute d)) := by
  rw [intersect_characterisation]
  apply List.filterMap_congr
  intro d hd
  rw [lastMatchStatus_eq_lastIdentityMatch S d (hD d hd) hS,
    lastIdentityMatch_eq_find S d hnd]

def specFoo : ComponentRouteSpec :=
  { Namespace := "default", Name := "foo", Hostname := "www.testing.com",
    ServingCertKeyPairSecret := { Name := "foo-sec" } }

def specBar : ComponentRouteSpec :=
  { Namespace := "default", Name := "bar", Hostname := "www.testing.com",
    ServingCertKeyPairSecret := { Name := "bar-sec" } }

def statusFoo : ComponentRouteStatus :=
  { Namespace := "default", Name := "foo", DefaultHostname := "",
    ConsumingUsers := ["a", "b"], CurrentHostnames := [] }

def statusBar : ComponentRouteStatus :=
  { Namespace := "default", Name := "bar", DefaultHostname := "",
    ConsumingUsers := ["b"], CurrentHostnames := [] }

/-- A status entry whose identity matches no spec entry. -/
def statusStale : ComponentRouteStatus :=
  { Namespace := "default", Name := "stale", DefaultHostname := "",
    ConsumingUsers := ["c"], CurrentHostnames := [] }

theorem C1_witness :
    intersectingComponentRoutes [specFoo, specBar] [statusFoo, statusStale] =
      [specFoo, specBar].filterMap (fun d =>
        (([statusFoo, statusStale]).find? (sameIdentity d)).map
          (newAggregatedComponentRoute d)) :=
  C1_intersection_correctness [specFoo, specBar] [statusFoo, statusStale]
    (by decide) (by decide) (by decide)

/-- A desired list containing the same `(namespace, name)` identity twice,
with different serving secrets. -/
def dupSpecA : ComponentRouteSpec :=
  { Namespace := "default", Name := "foo", Hostname := "",
    ServingCertKeyPairSecret := { Name := "s1" } }

def dupSpecB : ComponentRouteSpec :=
  { Namespace := "default", Name := "foo", Hostname := "",
    ServingCertKeyPairSecret := { Name := "s2" } }

/-- C7, refuted at a concrete input: a desired list with a duplicated
identity yields *two* targets for that one logical identity (one per
desired entry), not "at most one target per logical identity" — the
keyed-by-hash map is built only over the observed list, while the desired
list is iterated without deduplication. -/
theorem C7_counterexample :
    (intersectingComponentRoutes [dupSpecA, dupSpecB] [statusFoo]).map
        (fun t => (t.Name, t.Hash, t.ServingCertificateName)) =
      [("foo", "default/foo", "s1"), ("foo", "default/foo", "s2")] ∧
    (intersectingComponentRoutes [dupSpecA, dupSpecB] [statusFoo]).length = 2 := by
  constructor
  · rfl
  · rfl

/-- C7 as amended: duplicates in the *observed* list follow last-one-wins
keyed-by-hash map-assignment semantics — a target carries the last
matching observed entry's data — while each entry of the *desired* list
(duplicated identity or not) produces its own target. -/
theorem C7_amended_last_one_wins (D : List ComponentRouteSpec)
    (S : List ComponentRouteStatus)
    (hD : ∀ d ∈ D, slashFree d.Namespace)
    (hS : ∀ s ∈ S, slashFree s.Namespace) :
    intersectingComponentRoutes D S =
      D.filterMap (fun d =>
        (lastIdentityMatch S d).map (newAggregatedComponentRoute d)) := by
  rw [intersect_characterisation]
  apply List.filterMap_congr
  intro d hd
  rw [lastMatchStatus_eq_lastIdentityMatch S d (hD d hd) hS]

/-- A second observed entry for the identity `default/foo`. -/
def statusFooLater : ComponentRouteStatus :=
  { Namespace := "default", Name := "foo", DefaultHostname := "",
    ConsumingUsers := ["late"], CurrentHostnames := [] }

theorem C7_witness :
    intersectingComponentRoutes [dupSpecA, dupSpecB] [statusFoo, statusFooLater] =
      [dupSpecA, dupSpecB].filterMap (fun d =>
        (lastIdentityMatch [statusFoo, statusFooLater] d).map
          (newAggregatedComponentRoute d)) :=
  C7_amended_last_one_wins [dupSpecA, dupSpecB] [statusFoo, statusFooLater]
    (by decide) (by decide)

/-! ### State predicates and collaborator-call lemmas -/

/-- The roles a label-query for correlation hash `h` returns. -/
def rolesFor (w : World) (h : String) : List Role :=
  w.roles.filter (fun r => matchesOptions r.Labels r.Namespace (crOptions h))

/-- The role bindings a label-query for correlation hash `h` returns. -/
def bindingsFor (w : World) (h : String) : List RoleBinding :=
  w.roleBindings.filter (fun b => matchesOptions b.Labels b.Namespace (crOptions h))

/-- Well-formed cluster state: object names are unique per namespace, as
the API server guarantees. -/
def World.WF (w : World) : Prop :=
  (w.roles.map (fun r => (r.Name, r.Namespace))).Nodup ∧
  (w.roleBindings.map (fun b => (b.Name, b.Namespace))).Nodup

instance (w : World) : Decidable w.WF := by
  unfold World.WF; infer_instance

theorem nextFailure_none {w : World} (hf : w.failures = []) :
    w.nextFailure = none := by
  simp [World.nextFailure, hf]

theorem matchesOptions_crOptions (labels : List (String × String)) (ns h : String) :
    matchesOptions labels ns (crOptions h) =
      ((labels.lookup componentRouteHashLabelKey == some h) &&
        (ns == OpenShiftConfigNamespace)) := by
  simp [matchesOptions, crOptions, labelsMatchOption]

theorem matchesOptions_allOptions (labels : List (String × String)) (ns : String) :
    matchesOptions labels ns allComponentRouteResources =
      ((labels.lookup componentRouteHashLabelKey).isSome &&
        (ns == OpenShiftConfigNamespace)) := by
  simp [matchesOptions, allComponentRouteResources, labelsMatchOption]

theorem listRoles_noFail {w : World} (opts : List ListOption)
    (hf : w.failures = []) :
    listRoles w opts =
      (w.step, .ok (w.roles.filter (fun r => matchesOptions r.Labels r.Namespace opts))) := by
  simp [listRoles, nextFailure_none hf]

theorem listRoleBindings_noFail {w : World} (opts : List ListOption)
    (hf : w.failures = []) :
    listRoleBindings w opts =
      (w.step, .ok (w.roleBindings.filter (fun b => matchesOptions b.Labels b.Namespace opts))) := by
  simp [listRoleBindings, nextFailure_none hf]

theorem updateRole_noFail_mem {w : World} (r : Role) (hf : w.failures = [])
    (hm : w.roles.any (fun r0 => r0.Name == r.Name && r0.Namespace == r.Namespace) = true) :
    updateRole w r =
      ({ w with callCount := w.callCount + 1, roles := w.roles.map (fun r0 =>
           if r0.Name == r.Name && r0.Namespace == r.Namespace then r else r0) },
        .ok ()) := by
  simp [updateRole, nextFailure_none hf, hm]

theorem updateRoleBinding_noFail_mem {w : World} (b : RoleBinding)
    (hf : w.failures = [])
    (hm : w.roleBindings.any (fun b0 => b0.Name == b.Name && b0.Namespace == b.Namespace) = true) :
    updateRoleBinding w b =
      ({ w with callCount := w.callCount + 1, roleBindings := w.roleBindings.map (fun b0 =>
           if b0.Name == b.Name && b0.Namespace == b.Namespace then b else b0) },
        .ok ()) := by
  simp [updateRoleBinding, nextFailure_none hf, hm]

theorem deleteRole_noFail_mem {w : World} (name ns : String) (hf : w.failures = [])
    (hm : w.roles.any (fun r0 => r0.Name == name && r0.Namespace == ns) = true) :
    deleteRole w name ns =
      ({ w with callCount := w.callCount + 1, roles := w.roles.filter (fun r0 =>
           !(r0.Name == name && r0.Namespace == ns)) },
        .ok ()) := by
  simp [deleteRole, nextFailure_none hf, hm]

theorem deleteRole_noFail_notMem {w : World} (name ns : String) (hf : w.failures = [])
    (hm : w.roles.any (fun r0 => r0.Name == name && r0.Namespace == ns) = false) :
    deleteRole w name ns = (w.step, .error .notFound) := by
  simp [deleteRole, nextFailure_none hf, hm]

theorem deleteRoleBinding_noFail_mem {w : World} (name ns : String)
    (hf : w.failures = [])
    (hm : w.roleBindings.any (fun b0 => b0.Name == name && b0.Namespace == ns) = true) :
    deleteRoleBinding w name ns =
      ({ w with callCount := w.callCount + 1, roleBindings := w.roleBindings.filter (fun b0 =>
           !(b0.Name == name && b0.Namespace == ns)) },
        .ok ()) := by
  simp [deleteRoleBinding, nextFailure_none hf, hm]

theorem deleteRoleBinding_noFail_notMem {w : World} (name ns : String)
    (hf : w.failures = [])
    (hm : w.roleBindings.any (fun b0 => b0.Name == name && b0.Namespace == ns) = false) :
    deleteRoleBinding w name ns = (w.step, .error .notFound) := by
  simp [deleteRoleBinding, nextFailure_none hf, hm]
/-! ### Unit behaviour of role convergence -/

theorem World.eqOf (w1 w2 : World) (h1 : w1.ingresses = w2.ingresses)
    (h2 : w1.roles = w2.roles) (h3 : w1.roleBindings = w2.roleBindings)
    (h4 : w1.counter = w2.counter) (h5 : w1.callCount = w2.callCount)
    (h6 : w1.failures = w2.failures) : w1 = w2 := by
  cases w1; cases w2
  simp only at h1 h2 h3 h4 h5 h6
  rw [h1, h2, h3, h4, h5, h6]

/-- Remove, key by key, every object sharing a listed item's
`(name, namespace)` key. -/
def removeNamed (items : List Role) (roles : List Role) : List Role :=
  match items with
  | [] => roles
  | x :: rest =>
    removeNamed rest (roles.filter (fun r0 => !(r0.Name == x.Name && r0.Namespace == x.Namespace)))

theorem removeNamed_eq_filter (items roles : List Role) :
    removeNamed items roles = roles.filter (fun r0 =>
      !(items.any (fun x => r0.Name == x.Name && r0.Namespace == x.Namespace))) := by
  induction items generalizing roles with
  | nil => simp [removeNamed]
  | cons x rest ih =>
    rw [removeNamed, ih, List.filter_filter]
    apply List.filter_congr
    intro r0 _
    cases hx : r0.Name == x.Name && r0.Namespace == x.Namespace <;>
      cases hy : rest.any (fun y => r0.Name == y.Name && r0.Namespace == y.Namespace) <;>
        simp [hx, hy]

/-- With no failure injection, the duplicate-deletion loop never fails
(`NotFound` is skipped and nothing else can go wrong), deletes exactly the
listed items' keys, and records one delete call per item. -/
theorem deleteRoleDups_noFail (items : List Role) (w : World) (hf : w.failures = []) :
    deleteRoleDups items w =
      ({ w with callCount := w.callCount + items.length,
                roles := removeNamed items w.roles },
       items.map (fun x => Op.deleteRole x.Name x.Namespace), .ok ()) := by
  induction items generalizing w with
  | nil => simp [deleteRoleDups, removeNamed]
  | cons x rest ih =>
    by_cases hm : w.roles.any (fun r0 => r0.Name == x.Name && r0.Namespace == x.Namespace) = true
    · rw [deleteRoleDups, deleteRole_noFail_mem x.Name x.Namespace hf hm]
      rw [ih _ (by simp [hf])]
      refine Prod.ext_iff.mpr ⟨World.eqOf _ _ rfl rfl rfl rfl ?_ rfl, rfl⟩
      simp only [List.length_cons]
      omega
    · have hm' : w.roles.any (fun r0 => r0.Name == x.Name && r0.Namespace == x.Namespace) = false :=
        Bool.eq_false_iff.mpr hm
      rw [deleteRoleDups, deleteRole_noFail_notMem x.Name x.Namespace hf hm']
      simp only [K8sErr.IsNotFound, Bool.not_true, Bool.false_eq_true, if_false]
      rw [ih _ (by simp [World.step, hf])]
      have hid : w.roles.filter (fun r0 =>
          !(r0.Name == x.Name && r0.Namespace == x.Namespace)) = w.roles := by
        apply List.filter_eq_self.mpr
        intro r0 hr0
        have hx : (r0.Name == x.Name && r0.Namespace == x.Namespace) = false :=
          Bool.eq_false_iff.mpr (List.any_eq_false.mp hm' r0 hr0)
        simp [hx]
      refine Prod.ext_iff.mpr ⟨World.eqOf _ _ rfl ?_ rfl rfl ?_ rfl, rfl⟩
      · show removeNamed rest w.roles = removeNamed (x :: rest) w.roles
        rw [removeNamed, hid]
      · simp only [World.step, List.length_cons]
        omega

theorem listRoles_cr {w : World} (cr : aggregatedComponentRoute)
    (hf : w.failures = []) :
    listRoles w (componentRouteResources cr) = (w.step, .ok (rolesFor w cr.Hash)) := by
  rw [listRoles_noFail _ hf]; rfl

theorem listRoleBindings_cr {w : World} (cr : aggregatedComponentRoute)
    (hf : w.failures = []) :
    listRoleBindings w (componentRouteResources cr) =
      (w.step, .ok (bindingsFor w cr.Hash)) := by
  rw [listRoleBindings_noFail _ hf]; rfl

/-- Role convergence when no role matches the correlation label: the
desired role is created under a server-generated name and that name is
returned. -/
theorem ensureRole_create (cfg : Config) (ow : Ingress)
    (cr : aggregatedComponentRoute) (w : World) (hf : w.failures = [])
    (h0 : rolesFor w cr.Hash = [])
    (hclash : w.roles.any (fun x => x.Name == cr.Name ++ "-" ++ toString w.counter &&
        x.Namespace == cfg.SecretNamespace) = false) :
    ensureServiceCertKeyPairSecretRole cfg ow cr w =
      ({ w with callCount := w.callCount + 1 + 1,
                counter := w.counter + 1,
                roles := w.roles ++
                  [{ desiredRole cfg cr with Name := cr.Name ++ "-" ++ toString w.counter }] },
       [Op.listRoles (componentRouteResources cr), Op.createRole (desiredRole cfg cr)],
       .ok (cr.Name ++ "-" ++ toString w.counter)) := by
  have hee : (("" : String) == "") = true := rfl
  simp only [ensureServiceCertKeyPairSecretRole, listRoles_cr cr hf, h0]
  simp only [createRole, World.step, World.nextFailure, hf, List.lookup_nil]
  simp only [desiredRole, hee, if_true]
  simp only [hclash, Bool.false_eq_true, if_false]

/-- Role convergence when at least one role matches the correlation label:
every match but the first is deleted, the first match's rules are
overwritten with the desired rules, and the first match's name is
returned.  `hkeep` says the canonical role survives the duplicate
deletions, which holds in any well-formed state. -/
theorem ensureRole_existing (cfg : Config) (ow : Ingress)
    (cr : aggregatedComponentRoute) (w : World) (r0 : Role) (rest : List Role)
    (hf : w.failures = [])
    (hr : rolesFor w cr.Hash = r0 :: rest)
    (hkeep : (removeNamed rest w.roles).any (fun x =>
        x.Name == r0.Name && x.Namespace == r0.Namespace) = true) :
    ensureServiceCertKeyPairSecretRole cfg ow cr w =
      ({ w with callCount := w.callCount + 1 + rest.length + 1,
                roles := (removeNamed rest w.roles).map (fun x =>
                  if x.Name == r0.Name && x.Namespace == r0.Namespace then
                    { r0 with Rules := (desiredRole cfg cr).Rules } else x) },
       Op.listRoles (componentRouteResources cr) ::
         rest.map (fun x => Op.deleteRole x.Name x.Namespace) ++
           [Op.updateRole { r0 with Rules := (desiredRole cfg cr).Rules }],
       .ok r0.Name) := by
  have hf' : (World.step w).failures = [] := hf
  have hd := deleteRoleDups_noFail rest (World.step w) hf'
  simp only [ensureServiceCertKeyPairSecretRole, listRoles_cr cr hf, hr, hd]
  rw [updateRole_noFail_mem ({ r0 with Rules := (desiredRole cfg cr).Rules })
    (by simpa [World.step] using hf) (by simpa [World.step] using hkeep)]
  rfl

/-! ### Unit behaviour of role-binding convergence -/

/-- Binding analogue of `removeNamed`. -/
def removeNamedRB (items : List RoleBinding) (bs : List RoleBinding) : List RoleBinding :=
  match items with
  | [] => bs
  | x :: rest =>
    removeNamedRB rest (bs.filter (fun b0 => !(b0.Name == x.Name && b0.Namespace == x.Namespace)))

theorem removeNamedRB_eq_filter (items bs : List RoleBinding) :
    removeNamedRB items bs = bs.filter (fun b0 =>
      !(items.any (fun x => b0.Name == x.Name && b0.Namespace == x.Namespace))) := by
  induction items generalizing bs with
  | nil => simp [removeNamedRB]
  | cons x rest ih =>
    rw [removeNamedRB, ih, List.filter_filter]
    apply List.filter_congr
    intro b0 _
    cases hx : b0.Name == x.Name && b0.Namespace == x.Namespace <;>
      cases hy : rest.any (fun y => b0.Name == y.Name && b0.Namespace == y.Namespace) <;>
        simp [hx, hy]

theorem deleteRoleBindingDups_noFail (items : List RoleBinding) (w : World)
    (hf : w.failures = []) :
    deleteRoleBindingDups items w =
      ({ w with callCount := w.callCount + items.length,
                roleBindings := removeNamedRB items w.roleBindings },
       items.map (fun x => Op.deleteRoleBinding x.Name x.Namespace), .ok ()) := by
  induction items generalizing w with
  | nil => simp [deleteRoleBindingDups, removeNamedRB]
  | cons x rest ih =>
    by_cases hm : w.roleBindings.any (fun b0 =>
        b0.Name == x.Name && b0.Namespace == x.Namespace) = true
    · rw [deleteRoleBindingDups, deleteRoleBinding_noFail_mem x.Name x.Namespace hf hm]
      rw [ih _ (by simp [hf])]
      refine Prod.ext_iff.mpr ⟨World.eqOf _ _ rfl rfl rfl rfl ?_ rfl, rfl⟩
      simp only [List.length_cons]
      omega
    · have hm' : w.roleBindings.any (fun b0 =>
          b0.Name == x.Name && b0.Namespace == x.Namespace) = false :=
        Bool.eq_false_iff.mpr hm
      rw [deleteRoleBindingDups, deleteRoleBinding_noFail_notMem x.Name x.Namespace hf hm']
      simp only [K8sErr.IsNotFound, Bool.not_true, Bool.false_eq_true, if_false]
      rw [ih _ (by simp [World.step, hf])]
      have hid : w.roleBindings.filter (fun b0 =>
          !(b0.Name == x.Name && b0.Namespace == x.Namespace)) = w.roleBindings := by
        apply List.filter_eq_self.mpr
        intro b0 hb0
        have hx : (b0.Name == x.Name && b0.Namespace == x.Namespace) = false :=
          Bool.eq_false_iff.mpr (List.any_eq_false.mp hm' b0 hb0)
        simp [hx]
      refine Prod.ext_iff.mpr ⟨World.eqOf _ _ rfl rfl ?_ rfl ?_ rfl, rfl⟩
      · show removeNamedRB rest w.roleBindings = removeNamedRB (x :: rest) w.roleBindings
        rw [removeNamedRB, hid]
      · simp only [World.step, List.length_cons]
        omega

/-- Role-binding convergence when no binding matches the correlation
label: the desired binding is created, named after the role name. -/
theorem ensureRoleBinding_create (cfg : Config) (ow : Ingress)
    (cr : aggregatedComponentRoute) (roleName : String) (w : World)
    (hf : w.failures = [])
    (h0 : bindingsFor w cr.Hash = [])
    (hclash : w.roleBindings.any (fun x => x.Name == roleName &&
        x.Namespace == cfg.SecretNamespace) = false) :
    ensureServiceCertKeyPairSecretRoleBinding cfg ow cr roleName w =
      ({ w with callCount := w.callCount + 1 + 1,
                roleBindings := w.roleBindings ++ [desiredRoleBinding cfg cr roleName] },
       [Op.listRoleBindings (componentRouteResources cr),
        Op.createRoleBinding (desiredRoleBinding cfg cr roleName)],
       .ok ()) := by
  simp only [ensureServiceCertKeyPairSecretRoleBinding, listRoleBindings_cr cr hf, h0]
  simp only [createRoleBinding, World.step, World.nextFailure, hf, List.lookup_nil]
  simp only [desiredRoleBinding, hclash, Bool.false_eq_true, if_false]

/-- Role-binding convergence when at least one binding matches the
correlation label: every match but the first is deleted and the first
match's subjects and role reference are overwritten; its own name is kept
as it is. -/
theorem ensureRoleBinding_existing (cfg : Config) (ow : Ingress)
    (cr : aggregatedComponentRoute) (roleName : String) (w : World)
    (b0 : RoleBinding) (rest : List RoleBinding)
    (hf : w.failures = [])
    (hb : bindingsFor w cr.Hash = b0 :: rest)
    (hkeep : (removeNamedRB rest w.roleBindings).any (fun x =>
        x.Name == b0.Name && x.Namespace == b0.Namespace) = true) :
    ensureServiceCertKeyPairSecretRoleBinding cfg ow cr roleName w =
      ({ w with callCount := w.callCount + 1 + rest.length + 1,
                roleBindings := (removeNamedRB rest w.roleBindings).map (fun x =>
                  if x.Name == b0.Name && x.Namespace == b0.Namespace then
                    { b0 with Subjects := (desiredRoleBinding cfg cr roleName).Subjects,
                              RoleRef := (desiredRoleBinding cfg cr roleName).RoleRef }
                  else x) },
       Op.listRoleBindings (componentRouteResources cr) ::
         rest.map (fun x => Op.deleteRoleBinding x.Name x.Namespace) ++
           [Op.updateRoleBinding
             { b0 with Subjects := (desiredRoleBinding cfg cr roleName).Subjects,
                       RoleRef := (desiredRoleBinding cfg cr roleName).RoleRef }],
       .ok ()) := by
  have hf' : (World.step w).failures = [] := hf
  have hd := deleteRoleBindingDups_noFail rest (World.step w) hf'
  simp only [ensureServiceCertKeyPairSecretRoleBinding, listRoleBindings_cr cr hf, hb, hd]
  rw [updateRoleBinding_noFail_mem
    ({ b0 with Subjects := (desiredRoleBinding cfg cr roleName).Subjects,
               RoleRef := (desiredRoleBinding cfg cr roleName).RoleRef })
    (by simpa [World.step] using hf) (by simpa [World.step] using hkeep)]
  rfl

/-! ### Unit behaviour of garbage collection -/

/-- A listed item is stale when its correlation-hash label value is absent
from the active hash set (items without the label never match the list
query, see `matchesOptions_allOptions`). -/
def staleItem (active : List String) (labels : List (String × String)) : Bool :=
  match labels.lookup componentRouteHashLabelKey with
  | some h => !(active.contains h)
  | none => false

/-- An object the garbage collector deletes: it carries the marker label,
lives in the managed namespace, and its hash is not in the active set. -/
def orphaned (active : List String) (labels : List (String × String))
    (ns : String) : Bool :=
  matchesOptions labels ns allComponentRouteResources && staleItem active labels

theorem cleanupRoleItems_noFail (active : List String) (items : List Role)
    (w : World) (hf : w.failures = [])
    (hlab : ∀ x ∈ items, (x.Labels.lookup componentRouteHashLabelKey).isSome) :
    cleanupRoleItems active items w =
      ({ w with callCount := w.callCount +
                  (items.filter (fun x => staleItem active x.Labels)).length,
                roles := removeNamed (items.filter (fun x => staleItem active x.Labels))
                  w.roles },
       (items.filter (fun x => staleItem active x.Labels)).map
         (fun x => Op.deleteRole x.Name x.Namespace),
       .ok ()) := by
  induction items generalizing w with
  | nil => simp [cleanupRoleItems, removeNamed]
  | cons x rest ih =>
    obtain ⟨h, hh⟩ := Option.isSome_iff_exists.mp (hlab x (List.mem_cons_self x rest))
    have hlab' : ∀ y ∈ rest, (y.Labels.lookup componentRouteHashLabelKey).isSome :=
      fun y hy => hlab y (List.mem_cons_of_mem x hy)
    by_cases hc : active.contains h
    · have hcm : h ∈ active := List.elem_iff.mp hc
      have hstale : staleItem active x.Labels = false := by
        simp only [staleItem, hh]
        rw [hc, Bool.not_true]
      simp only [cleanupRoleItems, hh, hc, hcm, if_true, List.filter_cons, hstale,
        Bool.false_eq_true, if_false]
      exact ih w hf hlab'
    · have hc' : active.contains h = false := Bool.eq_false_iff.mpr hc
      have hstale : staleItem active x.Labels = true := by
        simp only [staleItem, hh, hc', Bool.not_false]
      simp only [cleanupRoleItems, hh, hc', Bool.false_eq_true, if_false,
        List.filter_cons, hstale, if_true]
      by_cases hm : w.roles.any (fun r0 => r0.Name == x.Name && r0.Namespace == x.Namespace) = true
      · rw [deleteRole_noFail_mem x.Name x.Namespace hf hm]
        rw [ih _ (by simp [hf]) hlab']
        refine Prod.ext_iff.mpr ⟨World.eqOf _ _ rfl rfl rfl rfl ?_ rfl, rfl⟩
        simp only [List.length_cons]
        omega
      · have hm' : w.roles.any (fun r0 =>
            r0.Name == x.Name && r0.Namespace == x.Namespace) = false :=
          Bool.eq_false_iff.mpr hm
        rw [deleteRole_noFail_notMem x.Name x.Namespace hf hm']
        simp only [K8sErr.IsNotFound, Bool.not_true, Bool.false_eq_true, if_false]
        rw [ih _ (by simp [World.step, hf]) hlab']
        have hid : w.roles.filter (fun r0 =>
            !(r0.Name == x.Name && r0.Namespace == x.Namespace)) = w.roles := by
          apply List.filter_eq_self.mpr
          intro r0 hr0
          have hx : (r0.Name == x.Name && r0.Namespace == x.Namespace) = false :=
            Bool.eq_false_iff.mpr (List.any_eq_false.mp hm' r0 hr0)
          simp [hx]
        refine Prod.ext_iff.mpr ⟨World.eqOf _ _ rfl ?_ rfl rfl ?_ rfl, rfl⟩
        · show removeNamed (rest.filter fun x => staleItem active x.Labels) w.roles =
            removeNamed (x :: rest.filter fun x => staleItem active x.Labels) w.roles
          rw [removeNamed, hid]
        · simp only [World.step, List.length_cons]
          omega

theorem cleanupRoleBindingItems_noFail (active : List String)
    (items : List RoleBinding) (w : World) (hf : w.failures = [])
    (hlab : ∀ x ∈ items, (x.Labels.lookup componentRouteHashLabelKey).isSome) :
    cleanupRoleBindingItems active items w =
      ({ w with callCount := w.callCount +
                  (items.filter (fun x => staleItem active x.Labels)).length,
                roleBindings := removeNamedRB
                  (items.filter (fun x => staleItem active x.Labels)) w.roleBindings },
       (items.filter (fun x => staleItem active x.Labels)).map
         (fun x => Op.deleteRoleBinding x.Name x.Namespace),
       .ok ()) := by
  induction items generalizing w with
  | nil => simp [cleanupRoleBindingItems, removeNamedRB]
  | cons x rest ih =>
    obtain ⟨h, hh⟩ := Option.isSome_iff_exists.mp (hlab x (List.mem_cons_self x rest))
    have hlab' : ∀ y ∈ rest, (y.Labels.lookup componentRouteHashLabelKey).isSome :=
      fun y hy => hlab y (List.mem_cons_of_mem x hy)
    by_cases hc : active.contains h
    · have hcm : h ∈ active := List.elem_iff.mp hc
      have hstale : staleItem active x.Labels = false := by
        simp only [staleItem, hh]
        rw [hc, Bool.not_true]
      simp only [cleanupRoleBindingItems, hh, hc, hcm, if_true, List.filter_cons, hstale,
        Bool.false_eq_true, if_false]
      exact ih w hf hlab'
    · have hc' : active.contains h = false := Bool.eq_false_iff.mpr hc
      have hstale : staleItem active x.Labels = true := by
        simp only [staleItem, hh, hc', Bool.not_false]
      simp only [cleanupRoleBindingItems, hh, hc', Bool.false_eq_true, if_false,
        List.filter_cons, hstale, if_true]
      by_cases hm : w.roleBindings.any (fun b0 =>
          b0.Name == x.Name && b0.Namespace == x.Namespace) = true
      · rw [deleteRoleBinding_noFail_mem x.Name x.Namespace hf hm]
        rw [ih _ (by simp [hf]) hlab']
        refine Prod.ext_iff.mpr ⟨World.eqOf _ _ rfl rfl rfl rfl ?_ rfl, rfl⟩
        simp only [List.length_cons]
        omega
      · have hm' : w.roleBindings.any (fun b0 =>
            b0.Name == x.Name && b0.Namespace == x.Namespace) = false :=
          Bool.eq_false_iff.mpr hm
        rw [deleteRoleBinding_noFail_notMem x.Name x.Namespace hf hm']
        simp only [K8sErr.IsNotFound, Bool.not_true, Bool.false_eq_true, if_false]
        rw [ih _ (by simp [World.step, hf]) hlab']
        have hid : w.roleBindings.filter (fun b0 =>
            !(b0.Name == x.Name && b0.Namespace == x.Namespace)) = w.roleBindings := by
          apply List.filter_eq_self.mpr
          intro b0 hb0
          have hx : (b0.Name == x.Name && b0.Namespace == x.Namespace) = false :=
            Bool.eq_false_iff.mpr (List.any_eq_false.mp hm' b0 hb0)
          simp [hx]
        refine Prod.ext_iff.mpr ⟨World.eqOf _ _ rfl rfl ?_ rfl ?_ rfl, rfl⟩
        · show removeNamedRB (rest.filter fun x => staleItem active x.Labels) w.roleBindings =
            removeNamedRB (x :: rest.filter fun x => staleItem active x.Labels) w.roleBindings
          rw [removeNamedRB, hid]
        · simp only [World.step, List.length_cons]
          omega

/-- In a key-nodup role list, removing the names of exactly the items
satisfying `p` is the same as filtering `p` out. -/
theorem removeNamed_filter_self (p : Role → Bool) (l : List Role)
    (hnd : (l.map (fun r => (r.Name, r.Namespace))).Nodup) :
    removeNamed (l.filter p) l = l.filter (fun r => !(p r)) := by
  rw [removeNamed_eq_filter]
  apply List.filter_congr
  intro r hr
  suffices hs : ((l.filter p).any (fun x => r.Name == x.Name && r.Namespace == x.Namespace)) = p r by
    rw [hs]
  cases hp : p r with
  | true =>
    apply List.any_eq_true.mpr
    exact ⟨r, List.mem_filter.mpr ⟨hr, hp⟩, by simp⟩
  | false =>
    apply Bool.eq_false_iff.mpr
    intro hany
    obtain ⟨x, hxmem, hxeq⟩ := List.any_eq_true.mp hany
    obtain ⟨hxl, hxp⟩ := List.mem_filter.mp hxmem
    simp only [Bool.and_eq_true, beq_iff_eq] at hxeq
    have hrx : r = x := by
      apply List.inj_on_of_nodup_map hnd hr hxl
      simp [hxeq.1, hxeq.2]
    have hc0 : p x = false := hrx ▸ hp
    rw [hxp] at hc0
    exact Bool.noConfusion hc0

/-- Binding analogue of `removeNamed_filter_self`. -/
theorem removeNamedRB_filter_self (p : RoleBinding → Bool) (l : List RoleBinding)
    (hnd : (l.map (fun b => (b.Name, b.Namespace))).Nodup) :
    removeNamedRB (l.filter p) l = l.filter (fun b => !(p b)) := by
  rw [removeNamedRB_eq_filter]
  apply List.filter_congr
  intro b hb
  suffices hs : ((l.filter p).any (fun x => b.Name == x.Name && b.Namespace == x.Namespace)) = p b by
    rw [hs]
  cases hp : p b with
  | true =>
    apply List.any_eq_true.mpr
    exact ⟨b, List.mem_filter.mpr ⟨hb, hp⟩, by simp⟩
  | false =>
    apply Bool.eq_false_iff.mpr
    intro hany
    obtain ⟨x, hxmem, hxeq⟩ := List.any_eq_true.mp hany
    obtain ⟨hxl, hxp⟩ := List.mem_filter.mp hxmem
    simp only [Bool.and_eq_true, beq_iff_eq] at hxeq
    have hbx : b = x := by
      apply List.inj_on_of_nodup_map hnd hb hxl
      simp [hxeq.1, hxeq.2]
    have hc0 : p x = false := hbx ▸ hp
    rw [hxp] at hc0
    exact Bool.noConfusion hc0

/-- Every item matching the marker-label list query carries the label. -/
theorem matchedRole_hasLabel (w : World) (x : Role)
    (hx : x ∈ w.roles.filter (fun r =>
      matchesOptions r.Labels r.Namespace allComponentRouteResources)) :
    (x.Labels.lookup componentRouteHashLabelKey).isSome := by
  have hmatch := (List.mem_filter.mp hx).2
  rw [matchesOptions_allOptions, Bool.and_eq_true] at hmatch
  exact hmatch.1

theorem matchedRoleBinding_hasLabel (w : World) (x : RoleBinding)
    (hx : x ∈ w.roleBindings.filter (fun b =>
      matchesOptions b.Labels b.Namespace allComponentRouteResources)) :
    (x.Labels.lookup componentRouteHashLabelKey).isSome := by
  have hmatch := (List.mem_filter.mp hx).2
  rw [matchesOptions_allOptions, Bool.and_eq_true] at hmatch
  exact hmatch.1

/-- Full characterisation of `cleanupOrphanedResources` with no failure
injection, in a well-formed state: it deletes exactly the marker-labeled
objects of the managed namespace whose correlation hash is not among the
active hashes, leaves everything else unchanged, and succeeds. -/
theorem cleanup_spec (crs : List aggregatedComponentRoute) (w : World)
    (hf : w.failures = []) (hWF : w.WF) :
    cleanupOrphanedResources crs w =
      ({ w with callCount := w.callCount + 1 +
                  (w.roles.filter (fun r =>
                    orphaned (crs.map (fun cr => cr.Hash)) r.Labels r.Namespace)).length
                  + 1 +
                  (w.roleBindings.filter (fun b =>
                    orphaned (crs.map (fun cr => cr.Hash)) b.Labels b.Namespace)).length,
                roles := w.roles.filter (fun r =>
                  !(orphaned (crs.map (fun cr => cr.Hash)) r.Labels r.Namespace)),
                roleBindings := w.roleBindings.filter (fun b =>
                  !(orphaned (crs.map (fun cr => cr.Hash)) b.Labels b.Namespace)) },
       Op.listRoles allComponentRouteResources ::
         ((w.roles.filter (fun r =>
             orphaned (crs.map (fun cr => cr.Hash)) r.Labels r.Namespace)).map
           (fun x => Op.deleteRole x.Name x.Namespace)) ++
         Op.listRoleBindings allComponentRouteResources ::
           ((w.roleBindings.filter (fun b =>
               orphaned (crs.map (fun cr => cr.Hash)) b.Labels b.Namespace)).map
             (fun x => Op.deleteRoleBinding x.Name x.Namespace)),
       .ok ()) := by
  have hro : (w.roles.filter (fun r =>
        matchesOptions r.Labels r.Namespace allComponentRouteResources)).filter
          (fun x => staleItem (crs.map (fun cr => cr.Hash)) x.Labels) =
      w.roles.filter (fun r =>
        orphaned (crs.map (fun cr => cr.Hash)) r.Labels r.Namespace) := by
    rw [List.filter_filter]
    apply List.filter_congr
    intro r _
    simp only [orphaned]
    exact Bool.and_comm _ _
  have hbo : (w.roleBindings.filter (fun b =>
        matchesOptions b.Labels b.Namespace allComponentRouteResources)).filter
          (fun x => staleItem (crs.map (fun cr => cr.Hash)) x.Labels) =
      w.roleBindings.filter (fun b =>
        orphaned (crs.map (fun cr => cr.Hash)) b.Labels b.Namespace) := by
    rw [List.filter_filter]
    apply List.filter_congr
    intro b _
    simp only [orphaned]
    exact Bool.and_comm _ _
  have h1 : listRoles w allComponentRouteResources =
      (w.step, .ok (w.roles.filter (fun r =>
        matchesOptions r.Labels r.Namespace allComponentRouteResources))) :=
    listRoles_noFail allComponentRouteResources hf
  have h2 : cleanupRoleItems (crs.map (fun cr => cr.Hash))
      (w.roles.filter (fun r =>
        matchesOptions r.Labels r.Namespace allComponentRouteResources)) w.step =
      ({ w with callCount := w.callCount + 1 +
                  (w.roles.filter (fun r =>
                    orphaned (crs.map (fun cr => cr.Hash)) r.Labels r.Namespace)).length,
                roles := w.roles.filter (fun r =>
                  !(orphaned (crs.map (fun cr => cr.Hash)) r.Labels r.Namespace)) },
       (w.roles.filter (fun r =>
           orphaned (crs.map (fun cr => cr.Hash)) r.Labels r.Namespace)).map
         (fun x => Op.deleteRole x.Name x.Namespace),
       .ok ()) := by
    rw [cleanupRoleItems_noFail (crs.map (fun cr => cr.Hash))
      (w.roles.filter (fun r =>
        matchesOptions r.Labels r.Namespace allComponentRouteResources))
      w.step hf (fun x hx => matchedRole_hasLabel w x hx)]
    dsimp only [World.step]
    rw [hro, removeNamed_filter_self _ _ hWF.1]
  have h3 : listRoleBindings
      ({ w with callCount := w.callCount + 1 +
                  (w.roles.filter (fun r =>
                    orphaned (crs.map (fun cr => cr.Hash)) r.Labels r.Namespace)).length,
                roles := w.roles.filter (fun r =>
                  !(orphaned (crs.map (fun cr => cr.Hash)) r.Labels r.Namespace)) })
      allComponentRouteResources =
      ({ w with callCount := w.callCount + 1 +
                  (w.roles.filter (fun r =>
                    orphaned (crs.map (fun cr => cr.Hash)) r.Labels r.Namespace)).length + 1,
                roles := w.roles.filter (fun r =>
                  !(orphaned (crs.map (fun cr => cr.Hash)) r.Labels r.Namespace)) },
       .ok (w.roleBindings.filter (fun b =>
         matchesOptions b.Labels b.Namespace allComponentRouteResources))) :=
    listRoleBindings_noFail allComponentRouteResources hf
  have h4 : cleanupRoleBindingItems (crs.map (fun cr => cr.Hash))
      (w.roleBindings.filter (fun b =>
        matchesOptions b.Labels b.Namespace allComponentRouteResources))
      ({ w with callCount := w.callCount + 1 +
                  (w.roles.filter (fun r =>
                    orphaned (crs.map (fun cr => cr.Hash)) r.Labels r.Namespace)).length + 1,
                roles := w.roles.filter (fun r =>
                  !(orphaned (crs.map (fun cr => cr.Hash)) r.Labels r.Namespace)) }) =
      ({ w with callCount := w.callCount + 1 +
                  (w.roles.filter (fun r =>
                    orphaned (crs.map (fun cr => cr.Hash)) r.Labels r.Namespace)).length + 1 +
                  (w.roleBindings.filter (fun b =>
                    orphaned (crs.map (fun cr => cr.Hash)) b.Labels b.Namespace)).length,
                roles := w.roles.filter (fun r =>
                  !(orphaned (crs.map (fun cr => cr.Hash)) r.Labels r.Namespace)),
                roleBindings := w.roleBindings.filter (fun b =>
                  !(orphaned (crs.map (fun cr => cr.Hash)) b.Labels b.Namespace)) },
       (w.roleBindings.filter (fun b =>
           orphaned (crs.map (fun cr => cr.Hash)) b.Labels b.Namespace)).map
         (fun x => Op.deleteRoleBinding x.Name x.Namespace),
       .ok ()) := by
    rw [cleanupRoleBindingItems_noFail (crs.map (fun cr => cr.Hash))
      (w.roleBindings.filter (fun b =>
        matchesOptions b.Labels b.Namespace allComponentRouteResources))
      ({ w with callCount := w.callCount + 1 +
                  (w.roles.filter (fun r =>
                    orphaned (crs.map (fun cr => cr.Hash)) r.Labels r.Namespace)).length + 1,
                roles := w.roles.filter (fun r =>
                  !(orphaned (crs.map (fun cr => cr.Hash)) r.Labels r.Namespace)) })
      hf (fun x hx => matchedRoleBinding_hasLabel w x hx)]
    dsimp only
    rw [hbo, removeNamedRB_filter_self _ _ hWF.2]
  simp only [cleanupOrphanedResources, h1, h2, h3, h4]

/-! ### Claim C9: parent fetch -/

theorem getIngress_fst (w : World) (n : String) : (getIngress w n).1 = w.step := by
  unfold getIngress
  cases h : w.nextFailure with
  | some e => rfl
  | none =>
    cases h2 : w.ingresses.find? (fun i => i.Name == n) with
    | some i => rfl
    | none => rfl

/-- C9: when the parent fetch reports NotFound, `Reconcile` returns
success with no requeue, having made no collaborator call other than the
fetch (so no create, update or delete was issued) and leaving the cluster
contents untouched; when the fetch reports any other error, `Reconcile`
aborts the same way but propagates the error. -/
theorem C9_fetch_error_handling (cfg : Config) (req : String) (w : World) :
    ((getIngress w req).2 = .error .notFound →
      Reconcile cfg req w = (w.step, [Op.getIngress req], ⟨false⟩, none)) ∧
    (∀ e : K8sErr, (getIngress w req).2 = .error e → e.IsNotFound = false →
      Reconcile cfg req w = (w.step, [Op.getIngress req], ⟨false⟩, some e)) := by
  constructor
  · intro h
    simp only [Reconcile, h, getIngress_fst]
    rfl
  · intro e h hne
    simp only [Reconcile, h, getIngress_fst, hne, Bool.false_eq_true, if_false]

/-- An ingress whose spec and status hold the test component routes. -/
def ingFull : Ingress :=
  { Name := "cluster"
    Spec := { Domain := "", AppsDomain := "", ComponentRoutes := [specFoo, specBar] }
    Status := { ComponentRoutes := [statusFoo, statusBar] } }

/-- The empty cluster, holding only the ingress. -/
def w0 : World :=
  { ingresses := [ingFull], roles := [], roleBindings := [], counter := 0,
    callCount := 0, failures := [] }

/-- A world with no ingress at all: the fetch reports NotFound. -/
def wNoIngress : World :=
  { ingresses := [], roles := [], roleBindings := [], counter := 0,
    callCount := 0, failures := [] }

theorem C9_witness :
    Reconcile { SecretNamespace := "openshift-config" } "cluster" wNoIngress =
      (wNoIngress.step, [Op.getIngress "cluster"], ⟨false⟩, none) :=
  (C9_fetch_error_handling { SecretNamespace := "openshift-config" } "cluster"
    wNoIngress).1 rfl

/-! ### Claim C3: garbage collection -/

/-- C3: with a well-formed cluster and no collaborator failure, garbage
collection deletes exactly the marker-labeled roles and role bindings of
the managed namespace whose correlation-hash label value is absent from
the active hash set (`orphaned`), leaves every other object unchanged (the
remaining lists are the original ones with exactly the orphans filtered
out, in order), issues exactly one delete call per orphan, and succeeds. -/
theorem C3_garbage_collection (crs : List aggregatedComponentRoute) (w : World)
    (hf : w.failures = []) (hWF : w.WF) :
    cleanupOrphanedResources crs w =
      ({ w with callCount := w.callCount + 1 +
                  (w.roles.filter (fun r =>
                    orphaned (crs.map (fun cr => cr.Hash)) r.Labels r.Namespace)).length
                  + 1 +
                  (w.roleBindings.filter (fun b =>
                    orphaned (crs.map (fun cr => cr.Hash)) b.Labels b.Namespace)).length,
                roles := w.roles.filter (fun r =>
                  !(orphaned (crs.map (fun cr => cr.Hash)) r.Labels r.Namespace)),
                roleBindings := w.roleBindings.filter (fun b =>
                  !(orphaned (crs.map (fun cr => cr.Hash)) b.Labels b.Namespace)) },
       Op.listRoles allComponentRouteResources ::
         ((w.roles.filter (fun r =>
             orphaned (crs.map (fun cr => cr.Hash)) r.Labels r.Namespace)).map
           (fun x => Op.deleteRole x.Name x.Namespace)) ++
         Op.listRoleBindings allComponentRouteResources ::
           ((w.roleBindings.filter (fun b =>
               orphaned (crs.map (fun cr => cr.Hash)) b.Labels b.Namespace)).map
             (fun x => Op.deleteRoleBinding x.Name x.Namespace)),
       .ok ()) :=
  cleanup_spec crs w hf hWF

/-- The active target for `default/foo` with its generated objects. -/
def aggFoo : aggregatedComponentRoute :=
  { Name := "foo", Hash := "default/foo", ServingCertificateName := "foo-sec",
    ConsumingUsers := ["a", "b"] }

def roleFoo0 : Role :=
  { Name := "foo-0", GenerateName := "foo-", Namespace := "openshift-config",
    Labels := [(componentRouteHashLabelKey, "default/foo")],
    Rules := [{ Verbs := ["get", "list", "watch"], APIGroups := [""],
                Resources := ["secrets"], ResourceNames := ["foo-sec"] }] }

def bindingFoo0 : RoleBinding :=
  { Name := "foo-0", Namespace := "openshift-config",
    Labels := [(componentRouteHashLabelKey, "default/foo")],
    Subjects := [{ Kind := "ServiceAccount", Name := "a", APIGroup := "" },
                 { Kind := "ServiceAccount", Name := "b", APIGroup := "" }],
    RoleRef := { Kind := "Role", Name := "foo-0",
                 APIGroup := "rbac.authorization.k8s.io" } }

/-- A role left over for a key that is no longer active. -/
def roleStale : Role :=
  { Name := "stale-0", GenerateName := "stale-", Namespace := "openshift-config",
    Labels := [(componentRouteHashLabelKey, "default/stale")], Rules := [] }

def bindingStale : RoleBinding :=
  { Name := "stale-0", Namespace := "openshift-config",
    Labels := [(componentRouteHashLabelKey, "default/stale")], Subjects := [],
    RoleRef := { Kind := "Role", Name := "stale-0",
                 APIGroup := "rbac.authorization.k8s.io" } }

/-- A cluster with one active and one orphaned role and role binding. -/
def wGC : World :=
  { ingresses := [ingFull], roles := [roleFoo0, roleStale],
    roleBindings := [bindingFoo0, bindingStale], counter := 1, callCount := 0,
    failures := [] }

theorem C3_witness :
    cleanupOrphanedResources [aggFoo] wGC =
      ({ wGC with callCount := wGC.callCount + 1 +
                    (wGC.roles.filter (fun r =>
                      orphaned ([aggFoo].map (fun cr => cr.Hash)) r.Labels r.Namespace)).length
                    + 1 +
                    (wGC.roleBindings.filter (fun b =>
                      orphaned ([aggFoo].map (fun cr => cr.Hash)) b.Labels b.Namespace)).length,
                  roles := wGC.roles.filter (fun r =>
                    !(orphaned ([aggFoo].map (fun cr => cr.Hash)) r.Labels r.Namespace)),
                  roleBindings := wGC.roleBindings.filter (fun b =>
                    !(orphaned ([aggFoo].map (fun cr => cr.Hash)) b.Labels b.Namespace)) },
       Op.listRoles allComponentRouteResources ::
         ((wGC.roles.filter (fun r =>
             orphaned ([aggFoo].map (fun cr => cr.Hash)) r.Labels r.Namespace)).map
           (fun x => Op.deleteRole x.Name x.Namespace)) ++
         Op.listRoleBindings allComponentRouteResources ::
           ((wGC.roleBindings.filter (fun b =>
               orphaned ([aggFoo].map (fun cr => cr.Hash)) b.Labels b.Namespace)).map
             (fun x => Op.deleteRoleBinding x.Name x.Namespace)),
       .ok ()) :=
  C3_garbage_collection [aggFoo] wGC rfl (by decide)

/-! ### Claim C5: the garbage collector's list errors are swallowed -/

/-- An ingress with no component routes at all. -/
def ingEmpty : Ingress :=
  { Name := "cluster"
    Spec := { Domain := "", AppsDomain := "", ComponentRoutes := [] }
    Status := { ComponentRoutes := [] } }

/-- A cluster holding an orphaned role, whose collaborator fails the
role-list call of the garbage collector (call index 1, right after the
parent fetch) with a non-ignorable error. -/
def wListFail : World :=
  { ingresses := [ingEmpty], roles := [roleStale], roleBindings := [],
    counter := 0, callCount := 0, failures := [(1, .other "boom")] }

/-- C5 fails on the code: the `r.cache.List` error inside
`cleanupOrphanedResources` is discarded, so a reconciliation whose
garbage-collection list call fails still reports overall success (no
requeue, no error) and silently skips deleting the orphan, which survives.
The claim (and the spec's propagation policy) says such an error must
abort reconciliation and propagate to the driver. -/
theorem C5_gc_list_error_swallowed :
    Reconcile { SecretNamespace := "openshift-config" } "cluster" wListFail =
      ({ wListFail with callCount := 3 },
       [Op.getIngress "cluster", Op.listRoles allComponentRouteResources,
        Op.listRoleBindings allComponentRouteResources], ⟨false⟩, none) ∧
    (Reconcile { SecretNamespace := "openshift-config" } "cluster" wListFail).1.roles =
      [roleStale] := by
  constructor
  · rfl
  · rfl

/-! ### Claim C6: label-integrity fault -/

theorem cleanupRB_phase_ok (active : List String) (v : World)
    (hfv : v.failures = []) :
    (cleanupRoleBindingItems active
      (match (listRoleBindings v allComponentRouteResources).2 with
       | .ok l => l
       | .error _ => [])
      (listRoleBindings v allComponentRouteResources).1).2.2 = .ok () := by
  rw [listRoleBindings_noFail allComponentRouteResources hfv]
  dsimp only
  rw [cleanupRoleBindingItems_noFail active _ v.step hfv
    (fun x hx => matchedRoleBinding_hasLabel v x hx)]

/-- C6: (a) if the garbage collector's role loop reaches an object that
lacks the correlation-hash label (after any number of well-labeled items),
it aborts with the hard label-integrity error rather than skipping the
object; (a') the role-binding loop aborts the same way on an unlabeled
binding; (b) with the modelled list collaborator — which only returns
objects matching the marker-label query, hence labeled ones — and no
injected failure, `cleanupOrphanedResources` always succeeds, so both
error branches are unreachable. -/
theorem C6_label_integrity :
    (∀ (active : List String) (pre post : List Role) (bad : Role) (w : World),
      w.failures = [] →
      (∀ x ∈ pre, (x.Labels.lookup componentRouteHashLabelKey).isSome) →
      bad.Labels.lookup componentRouteHashLabelKey = none →
      (cleanupRoleItems active (pre ++ bad :: post) w).2.2 = .error labelIntegrityErr) ∧
    (∀ (active : List String) (pre post : List RoleBinding) (bad : RoleBinding)
       (w : World),
      w.failures = [] →
      (∀ x ∈ pre, (x.Labels.lookup componentRouteHashLabelKey).isSome) →
      bad.Labels.lookup componentRouteHashLabelKey = none →
      (cleanupRoleBindingItems active (pre ++ bad :: post) w).2.2 =
        .error labelIntegrityErr) ∧
    (∀ (crs : List aggregatedComponentRoute) (w : World), w.failures = [] →
      (cleanupOrphanedResources crs w).2.2 = .ok ()) := by
  refine ⟨?_, ?_, ?_⟩
  · intro active pre post bad w hf hlab hbad
    induction pre generalizing w with
    | nil =>
      simp only [List.nil_append, cleanupRoleItems, hbad]
    | cons x rest ih =>
      obtain ⟨h, hh⟩ := Option.isSome_iff_exists.mp (hlab x (List.mem_cons_self x rest))
      have hlab' : ∀ y ∈ rest, (y.Labels.lookup componentRouteHashLabelKey).isSome :=
        fun y hy => hlab y (List.mem_cons_of_mem x hy)
      rw [List.cons_append]
      by_cases hc : active.contains h
      · have hcm : h ∈ active := List.elem_iff.mp hc
        simp only [cleanupRoleItems, hh, hc, hcm, if_true]
        exact ih w hf hlab'
      · have hc' : active.contains h = false := Bool.eq_false_iff.mpr hc
        simp only [cleanupRoleItems, hh, hc', Bool.false_eq_true, if_false]
        by_cases hm : w.roles.any (fun r0 =>
            r0.Name == x.Name && r0.Namespace == x.Namespace) = true
        · rw [deleteRole_noFail_mem x.Name x.Namespace hf hm]
          dsimp only
          exact ih _ (by simp [hf]) hlab'
        · have hm' : w.roles.any (fun r0 =>
              r0.Name == x.Name && r0.Namespace == x.Namespace) = false :=
            Bool.eq_false_iff.mpr hm
          rw [deleteRole_noFail_notMem x.Name x.Namespace hf hm']
          simp only [K8sErr.IsNotFound, Bool.not_true, Bool.false_eq_true, if_false]
          exact ih _ (by simp [World.step, hf]) hlab'
  · intro active pre post bad w hf hlab hbad
    induction pre generalizing w with
    | nil =>
      simp only [List.nil_append, cleanupRoleBindingItems, hbad]
    | cons x rest ih =>
      obtain ⟨h, hh⟩ := Option.isSome_iff_exists.mp (hlab x (List.mem_cons_self x rest))
      have hlab' : ∀ y ∈ rest, (y.Labels.lookup componentRouteHashLabelKey).isSome :=
        fun y hy => hlab y (List.mem_cons_of_mem x hy)
      rw [List.cons_append]
      by_cases hc : active.contains h
      · have hcm : h ∈ active := List.elem_iff.mp hc
        simp only [cleanupRoleBindingItems, hh, hc, hcm, if_true]
        exact ih w hf hlab'
      · have hc' : active.contains h = false := Bool.eq_false_iff.mpr hc
        simp only [cleanupRoleBindingItems, hh, hc', Bool.false_eq_true, if_false]
        by_cases hm : w.roleBindings.any (fun b0 =>
            b0.Name == x.Name && b0.Namespace == x.Namespace) = true
        · rw [deleteRoleBinding_noFail_mem x.Name x.Namespace hf hm]
          dsimp only
          exact ih _ (by simp [hf]) hlab'
        · have hm' : w.roleBindings.any (fun b0 =>
              b0.Name == x.Name && b0.Namespace == x.Namespace) = false :=
            Bool.eq_false_iff.mpr hm
          rw [deleteRoleBinding_noFail_notMem x.Name x.Namespace hf hm']
          simp only [K8sErr.IsNotFound, Bool.not_true, Bool.false_eq_true, if_false]
          exact ih _ (by simp [World.step, hf]) hlab'
  · intro crs w hf
    unfold cleanupOrphanedResources
    rw [listRoles_noFail allComponentRouteResources hf]
    dsimp only
    rw [cleanupRoleItems_noFail (crs.map (fun cr => cr.Hash)) _ w.step hf
      (fun x hx => matchedRole_hasLabel w x hx)]
    dsimp only
    apply cleanupRB_phase_ok
    exact hf

/-- A role with no labels at all (it could never be returned by the
marker-label list query, but the loop guards against it). -/
def roleUnlabeled : Role :=
  { Name := "mystery", GenerateName := "", Namespace := "openshift-config",
    Labels := [], Rules := [] }

/-- A role binding with no labels at all. -/
def bindingUnlabeled : RoleBinding :=
  { Name := "mystery", Namespace := "openshift-config", Labels := [],
    Subjects := [],
    RoleRef := { Kind := "Role", Name := "x",
                 APIGroup := "rbac.authorization.k8s.io" } }

theorem C6_witness :
    (cleanupRoleItems ["default/foo"] ([] ++ roleUnlabeled :: []) w0).2.2 =
      .error labelIntegrityErr ∧
    (cleanupRoleBindingItems ["default/foo"] ([] ++ bindingUnlabeled :: []) w0).2.2 =
      .error labelIntegrityErr ∧
    (cleanupOrphanedResources [aggFoo] wGC).2.2 = .ok () :=
  ⟨C6_label_integrity.1 ["default/foo"] [] [] roleUnlabeled w0 rfl
    (by intro x hx; cases hx) rfl,
   C6_label_integrity.2.1 ["default/foo"] [] [] bindingUnlabeled w0 rfl
    (by intro x hx; cases hx) rfl,
   C6_label_integrity.2.2 [aggFoo] wGC rfl⟩

/-! ### Claim C8: the binding refers to the exact role name -/

theorem deleteRoleDups_ops (items : List Role) (w : World) :
    ∀ op ∈ (deleteRoleDups items w).2.1, ∃ n ns, op = Op.deleteRole n ns := by
  induction items generalizing w with
  | nil => intro op hop; simp [deleteRoleDups] at hop
  | cons x rest ih =>
    intro op hop
    simp only [deleteRoleDups] at hop
    cases hp : (deleteRole w x.Name x.Namespace).2 with
    | error e =>
      rw [hp] at hop
      cases e with
      | notFound =>
        simp only [K8sErr.IsNotFound, Bool.not_true, Bool.false_eq_true, if_false] at hop
        rcases List.mem_cons.mp hop with h | h
        · exact ⟨x.Name, x.Namespace, h⟩
        · exact ih _ op h
      | alreadyExists =>
        simp only [K8sErr.IsNotFound, Bool.not_false, if_true, List.mem_singleton] at hop
        exact ⟨x.Name, x.Namespace, hop⟩
      | other m =>
        simp only [K8sErr.IsNotFound, Bool.not_false, if_true, List.mem_singleton] at hop
        exact ⟨x.Name, x.Namespace, hop⟩
    | ok u =>
      rw [hp] at hop
      rcases List.mem_cons.mp hop with h | h
      · exact ⟨x.Name, x.Namespace, h⟩
      · exact ih _ op h

theorem deleteRoleBindingDups_ops (items : List RoleBinding) (w : World) :
    ∀ op ∈ (deleteRoleBindingDups items w).2.1, ∃ n ns, op = Op.deleteRoleBinding n ns := by
  induction items generalizing w with
  | nil => intro op hop; simp [deleteRoleBindingDups] at hop
  | cons x rest ih =>
    intro op hop
    simp only [deleteRoleBindingDups] at hop
    cases hp : (deleteRoleBinding w x.Name x.Namespace).2 with
    | error e =>
      rw [hp] at hop
      cases e with
      | notFound =>
        simp only [K8sErr.IsNotFound, Bool.not_true, Bool.false_eq_true, if_false] at hop
        rcases List.mem_cons.mp hop with h | h
        · exact ⟨x.Name, x.Namespace, h⟩
        · exact ih _ op h
      | alreadyExists =>
        simp only [K8sErr.IsNotFound, Bool.not_false, if_true, List.mem_singleton] at hop
        exact ⟨x.Name, x.Namespace, hop⟩
      | other m =>
        simp only [K8sErr.IsNotFound, Bool.not_false, if_true, List.mem_singleton] at hop
        exact ⟨x.Name, x.Namespace, hop⟩
    | ok u =>
      rw [hp] at hop
      rcases List.mem_cons.mp hop with h | h
      · exact ⟨x.Name, x.Namespace, h⟩
      · exact ih _ op h

/-- C8 as amended: every role binding the convergence step *writes*
(creates or updates) carries a `roleRef` that names exactly the role name
the role-convergence step returned — never a recomputed one — and a
binding it *creates* additionally bears that name as its own object name.
(A binding reached through the update path keeps its pre-existing object
name; only its `roleRef` is repointed, see the counterexample.) -/
theorem C8_roleRef_exact_name (cfg : Config) (ow : Ingress)
    (cr : aggregatedComponentRoute) (roleName : String) (w : World) :
    (∀ b, Op.createRoleBinding b ∈
        (ensureServiceCertKeyPairSecretRoleBinding cfg ow cr roleName w).2.1 →
      b.Name = roleName ∧
      b.RoleRef = { Kind := "Role", Name := roleName,
                    APIGroup := "rbac.authorization.k8s.io" }) ∧
    (∀ b, Op.updateRoleBinding b ∈
        (ensureServiceCertKeyPairSecretRoleBinding cfg ow cr roleName w).2.1 →
      b.RoleRef = { Kind := "Role", Name := roleName,
                    APIGroup := "rbac.authorization.k8s.io" }) := by
  have hops := deleteRoleBindingDups_ops
  constructor
  · intro b hb
    simp only [ensureServiceCertKeyPairSecretRoleBinding] at hb
    rcases hp : (listRoleBindings w (componentRouteResources cr)).2 with e | items
    · rw [hp] at hb
      simp at hb
    · rw [hp] at hb
      dsimp only at hb
      cases items with
      | nil =>
        rcases hc : (createRoleBinding (listRoleBindings w (componentRouteResources cr)).1
            (desiredRoleBinding cfg cr roleName)).2 with e2 | u <;>
          rw [hc] at hb <;> simp at hb <;> subst hb <;> exact ⟨rfl, rfl⟩
      | cons first rest =>
        dsimp only at hb
        rcases hd : (deleteRoleBindingDups rest
            (listRoleBindings w (componentRouteResources cr)).1).2.2 with e2 | u
        · rw [hd] at hb
          simp at hb
          obtain ⟨n, ns, he⟩ := hops rest _ _ hb
          cases he
        · rw [hd] at hb
          rcases hu : (updateRoleBinding (deleteRoleBindingDups rest
              (listRoleBindings w (componentRouteResources cr)).1).1
              { first with Subjects := (desiredRoleBinding cfg cr roleName).Subjects,
                           RoleRef := (desiredRoleBinding cfg cr roleName).RoleRef }).2
              with e3 | u3 <;>
            rw [hu] at hb <;> simp at hb <;>
            (obtain ⟨n, ns, he⟩ := hops rest _ _ hb; cases he)
  · intro b hb
    simp only [ensureServiceCertKeyPairSecretRoleBinding] at hb
    rcases hp : (listRoleBindings w (componentRouteResources cr)).2 with e | items
    · rw [hp] at hb
      simp at hb
    · rw [hp] at hb
      dsimp only at hb
      cases items with
      | nil =>
        rcases hc : (createRoleBinding (listRoleBindings w (componentRouteResources cr)).1
            (desiredRoleBinding cfg cr roleName)).2 with e2 | u <;>
          rw [hc] at hb <;> simp at hb
      | cons first rest =>
        dsimp only at hb
        rcases hd : (deleteRoleBindingDups rest
            (listRoleBindings w (componentRouteResources cr)).1).2.2 with e2 | u
        · rw [hd] at hb
          simp at hb
          obtain ⟨n, ns, he⟩ := hops rest _ _ hb
          cases he
        · rw [hd] at hb
          rcases hu : (updateRoleBinding (deleteRoleBindingDups rest
              (listRoleBindings w (componentRouteResources cr)).1).1
              { first with Subjects := (desiredRoleBinding cfg cr roleName).Subjects,
                           RoleRef := (desiredRoleBinding cfg cr roleName).RoleRef }).2
              with e3 | u3 <;>
            rw [hu] at hb <;> simp at hb <;>
            rcases hb with hb | hb
          · obtain ⟨n, ns, he⟩ := hops rest _ _ hb
            cases he
          · subst hb
            rfl
          · obtain ⟨n, ns, he⟩ := hops rest _ _ hb
            cases he
          · subst hb
            rfl

def cfgOC : Config := { SecretNamespace := "openshift-config" }

/-- A pre-existing binding for the `default/foo` key whose object name
differs from the canonical role's name. -/
def bindingWeird : RoleBinding :=
  { Name := "weird", Namespace := "openshift-config",
    Labels := [(componentRouteHashLabelKey, "default/foo")], Subjects := [],
    RoleRef := { Kind := "Role", Name := "old",
                 APIGroup := "rbac.authorization.k8s.io" } }

def wWeird : World :=
  { ingresses := [], roles := [roleFoo0], roleBindings := [bindingWeird],
    counter := 1, callCount := 0, failures := [] }

/-- C8, refuted at a concrete input: on the update path the binding
produced by convergence keeps its pre-existing object name ("weird"),
which differs from the role name returned by role convergence ("foo-0");
only its `roleRef` is repointed at the exact role name.  So the binding
does not reference the role name "as its own name". -/
theorem C8_counterexample :
    (ensureServiceCertKeyPairSecretRoleBinding cfgOC ingEmpty aggFoo "foo-0" wWeird).2.2 =
      .ok () ∧
    (ensureServiceCertKeyPairSecretRoleBinding cfgOC ingEmpty aggFoo "foo-0"
        wWeird).1.roleBindings.map (fun b => (b.Name, b.RoleRef.Name)) =
      [("weird", "foo-0")] ∧
    ("weird" : String) ≠ "foo-0" := by
  refine ⟨rfl, rfl, by decide⟩

theorem C8_witness :
    (desiredRoleBinding cfgOC aggFoo "foo-0").Name = "foo-0" ∧
    (desiredRoleBinding cfgOC aggFoo "foo-0").RoleRef =
      { Kind := "Role", Name := "foo-0", APIGroup := "rbac.authorization.k8s.io" } :=
  (C8_roleRef_exact_name cfgOC ingEmpty aggFoo "foo-0" w0).1
    (desiredRoleBinding cfgOC aggFoo "foo-0") (by decide)

/-! ### Claim C10: content of created objects -/

/-- C10: every role the engine creates carries exactly the marker label
with the target's correlation hash and a single policy rule granting
get/list/watch on the resource `secrets` restricted to the target's
serving-secret name; every role binding it creates carries the same
marker label and exactly one ServiceAccount-kind subject per consuming
user; and when no binding matches the correlation label (and the name is
free), a create call is always issued — with an empty consumer list it
creates a binding with an empty subject list rather than skipping the
create. -/
theorem C10_created_content (cfg : Config) (ow : Ingress)
    (cr : aggregatedComponentRoute) (roleName : String) (w : World) :
    (∀ r, Op.createRole r ∈
        (ensureServiceCertKeyPairSecretRole cfg ow cr w).2.1 →
      r.Labels = [(componentRouteHashLabelKey, cr.Hash)] ∧
      r.Rules = [{ Verbs := ["get", "list", "watch"], APIGroups := [""],
                   Resources := ["secrets"],
                   ResourceNames := [cr.ServingCertificateName] }]) ∧
    (∀ b, Op.createRoleBinding b ∈
        (ensureServiceCertKeyPairSecretRoleBinding cfg ow cr roleName w).2.1 →
      b.Labels = [(componentRouteHashLabelKey, cr.Hash)] ∧
      b.Subjects = cr.ConsumingUsers.map (fun u =>
        { Kind := ServiceAccountKind, Name := u, APIGroup := "" })) ∧
    (w.failures = [] → bindingsFor w cr.Hash = [] →
      w.roleBindings.any (fun x => x.Name == roleName &&
        x.Namespace == cfg.SecretNamespace) = false →
      ∃ b, Op.createRoleBinding b ∈
          (ensureServiceCertKeyPairSecretRoleBinding cfg ow cr roleName w).2.1 ∧
        b.Subjects = cr.ConsumingUsers.map (fun u =>
          { Kind := ServiceAccountKind, Name := u, APIGroup := "" })) := by
  refine ⟨?_, ?_, ?_⟩
  · intro r hr
    simp only [ensureServiceCertKeyPairSecretRole] at hr
    rcases hp : (listRoles w (componentRouteResources cr)).2 with e | items
    · rw [hp] at hr
      simp at hr
    · rw [hp] at hr
      dsimp only at hr
      cases items with
      | nil =>
        rcases hc : (createRole (listRoles w (componentRouteResources cr)).1
            (desiredRole cfg cr)).2 with e2 | u <;>
          rw [hc] at hr <;> simp at hr <;> subst hr <;> exact ⟨rfl, rfl⟩
      | cons first rest =>
        dsimp only at hr
        rcases hd : (deleteRoleDups rest
            (listRoles w (componentRouteResources cr)).1).2.2 with e2 | u
        · rw [hd] at hr
          simp at hr
          obtain ⟨n, ns, he⟩ := deleteRoleDups_ops rest _ _ hr
          cases he
        · rw [hd] at hr
          rcases hu : (updateRole (deleteRoleDups rest
              (listRoles w (componentRouteResources cr)).1).1
              { first with Rules := (desiredRole cfg cr).Rules }).2 with e3 | u3 <;>
            rw [hu] at hr <;> simp at hr <;>
            (obtain ⟨n, ns, he⟩ := deleteRoleDups_ops rest _ _ hr; cases he)
  · intro b hb
    simp only [ensureServiceCertKeyPairSecretRoleBinding] at hb
    rcases hp : (listRoleBindings w (componentRouteResources cr)).2 with e | items
    · rw [hp] at hb
      simp at hb
    · rw [hp] at hb
      dsimp only at hb
      cases items with
      | nil =>
        rcases hc : (createRoleBinding (listRoleBindings w (componentRouteResources cr)).1
            (desiredRoleBinding cfg cr roleName)).2 with e2 | u <;>
          rw [hc] at hb <;> simp at hb <;> subst hb <;> exact ⟨rfl, rfl⟩
      | cons first rest =>
        dsimp only at hb
        rcases hd : (deleteRoleBindingDups rest
            (listRoleBindings w (componentRouteResources cr)).1).2.2 with e2 | u
        · rw [hd] at hb
          simp at hb
          obtain ⟨n, ns, he⟩ := deleteRoleBindingDups_ops rest _ _ hb
          cases he
        · rw [hd] at hb
          rcases hu : (updateRoleBinding (deleteRoleBindingDups rest
              (listRoleBindings w (componentRouteResources cr)).1).1
              { first with Subjects := (desiredRoleBinding cfg cr roleName).Subjects,
                           RoleRef := (desiredRoleBinding cfg cr roleName).RoleRef }).2
              with e3 | u3 <;>
            rw [hu] at hb <;> simp at hb <;>
            (obtain ⟨n, ns, he⟩ := deleteRoleBindingDups_ops rest _ _ hb; cases he)
  · intro hf h0 hclash
    rw [ensureRoleBinding_create cfg ow cr roleName w hf h0 hclash]
    exact ⟨desiredRoleBinding cfg cr roleName, by simp, rfl⟩

/-- A target with an empty consumer list. -/
def aggNoUsers : aggregatedComponentRoute :=
  { Name := "empty", Hash := "default/empty", ServingCertificateName := "empty-sec",
    ConsumingUsers := [] }

theorem C10_witness :
    ((desiredRole cfgOC aggNoUsers).Labels =
        [(componentRouteHashLabelKey, aggNoUsers.Hash)] ∧
      (desiredRole cfgOC aggNoUsers).Rules =
        [{ Verbs := ["get", "list", "watch"], APIGroups := [""],
           Resources := ["secrets"],
           ResourceNames := [aggNoUsers.ServingCertificateName] }]) ∧
    (∃ b, Op.createRoleBinding b ∈
        (ensureServiceCertKeyPairSecretRoleBinding cfgOC ingEmpty aggNoUsers
          "empty-0" w0).2.1 ∧
      b.Subjects = aggNoUsers.ConsumingUsers.map (fun u =>
        { Kind := ServiceAccountKind, Name := u, APIGroup := "" })) :=
  ⟨(C10_created_content cfgOC ingEmpty aggNoUsers "empty-0" w0).1
      (desiredRole cfgOC aggNoUsers) (by decide),
   (C10_created_content cfgOC ingEmpty aggNoUsers "empty-0" w0).2.2 rfl rfl rfl⟩

/-! ### Claim C4: duplicate self-healing -/

/-- Three roles sharing the correlation hash `default/foo`. -/
def roleDupA : Role :=
  { Name := "foo-0", GenerateName := "foo-", Namespace := "openshift-config",
    Labels := [(componentRouteHashLabelKey, "default/foo")], Rules := [] }

def roleDupB : Role :=
  { Name := "foo-1", GenerateName := "foo-", Namespace := "openshift-config",
    Labels := [(componentRouteHashLabelKey, "default/foo")], Rules := [] }

def roleDupC : Role :=
  { Name := "foo-2", GenerateName := "foo-", Namespace := "openshift-config",
    Labels := [(componentRouteHashLabelKey, "default/foo")], Rules := [] }

/-- Duplicates with a `NotFound` injected on the first duplicate's delete
call (call index 1): the duplicate disappeared concurrently. -/
def wDups : World :=
  { ingresses := [], roles := [roleDupA, roleDupB, roleDupC], roleBindings := [],
    counter := 3, callCount := 0, failures := [(1, .notFound)] }

/-- Three role bindings sharing the correlation hash `default/foo`. -/
def bindingDupA : RoleBinding :=
  { Name := "foo-0", Namespace := "openshift-config",
    Labels := [(componentRouteHashLabelKey, "default/foo")], Subjects := [],
    RoleRef := { Kind := "Role", Name := "old",
                 APIGroup := "rbac.authorization.k8s.io" } }

def bindingDupB : RoleBinding :=
  { Name := "foo-1", Namespace := "openshift-config",
    Labels := [(componentRouteHashLabelKey, "default/foo")], Subjects := [],
    RoleRef := { Kind := "Role", Name := "old",
                 APIGroup := "rbac.authorization.k8s.io" } }

def bindingDupC : RoleBinding :=
  { Name := "foo-2", Namespace := "openshift-config",
    Labels := [(componentRouteHashLabelKey, "default/foo")], Subjects := [],
    RoleRef := { Kind := "Role", Name := "old",
                 APIGroup := "rbac.authorization.k8s.io" } }

/-- Duplicate bindings with a `NotFound` injected on the first duplicate's
delete call (call index 1). -/
def wDupsB : World :=
  { ingresses := [], roles := [],
    roleBindings := [bindingDupA, bindingDupB, bindingDupC],
    counter := 3, callCount := 0, failures := [(1, .notFound)] }

/-- Two duplicate roles and no failure injection. -/
def wDup2 : World :=
  { ingresses := [], roles := [roleDupA, roleDupB], roleBindings := [],
    counter := 2, callCount := 0, failures := [] }

/-- Two duplicate bindings and no failure injection. -/
def wDupB2 : World :=
  { ingresses := [], roles := [], roleBindings := [bindingDupA, bindingDupB],
    counter := 2, callCount := 0, failures := [] }

/-! ### Claim C2: idempotence of a second run -/

/-- C2, refuted at a concrete input: running `Reconcile` twice from the
empty cluster with unchanged desired and observed lists, the second run
succeeds but performs an `updateRole` call (and is therefore not limited
to list calls): the engine overwrites the matched role unconditionally,
with identical content, instead of updating only when content differs. -/
theorem C2_counterexample :
    (Reconcile cfgOC "cluster" (Reconcile cfgOC "cluster" w0).1).2.2.2 = none ∧
    Op.updateRole roleFoo0 ∈
      (Reconcile cfgOC "cluster" (Reconcile cfgOC "cluster" w0).1).2.1 := by
  constructor
  · rfl
  · decide

/-- Replacing the object with `r0`'s key by a label- and
namespace-preserving substitute commutes with any filter that reads only
labels and namespace. -/
theorem filter_map_keyReplace (l : List Role) (r0 r0' : Role)
    (q : List (String × String) → String → Bool)
    (hl : r0'.Labels = r0.Labels) (hn : r0'.Namespace = r0.Namespace)
    (hnd : (l.map (fun r => (r.Name, r.Namespace))).Nodup) (hr0 : r0 ∈ l) :
    (l.map (fun x => if x.Name == r0.Name && x.Namespace == r0.Namespace then r0' else x)).filter
        (fun x => q x.Labels x.Namespace) =
      (l.filter (fun x => q x.Labels x.Namespace)).map
        (fun x => if x.Name == r0.Name && x.Namespace == r0.Namespace then r0' else x) := by
  rw [List.filter_map]
  apply congrArg
  apply List.filter_congr
  intro x hx
  simp only [Function.comp]
  by_cases hc : (x.Name == r0.Name && x.Namespace == r0.Namespace) = true
  · have hxr : x = r0 := by
      simp only [Bool.and_eq_true, beq_iff_eq] at hc
      exact List.inj_on_of_nodup_map hnd hx hr0 (by simp [hc.1, hc.2])
    simp only [hxr, beq_self_eq_true, Bool.and_self, if_true, hl, hn]
  · have hc' : (x.Name == r0.Name && x.Namespace == r0.Namespace) = false :=
      Bool.eq_false_iff.mpr hc
    simp only [hc', Bool.false_eq_true, if_false]

/-- Binding analogue of `filter_map_keyReplace`. -/
theorem filter_map_keyReplaceRB (l : List RoleBinding) (b0 b0' : RoleBinding)
    (q : List (String × String) → String → Bool)
    (hl : b0'.Labels = b0.Labels) (hn : b0'.Namespace = b0.Namespace)
    (hnd : (l.map (fun b => (b.Name, b.Namespace))).Nodup) (hb0 : b0 ∈ l) :
    (l.map (fun x => if x.Name == b0.Name && x.Namespace == b0.Namespace then b0' else x)).filter
        (fun x => q x.Labels x.Namespace) =
      (l.filter (fun x => q x.Labels x.Namespace)).map
        (fun x => if x.Name == b0.Name && x.Namespace == b0.Namespace then b0' else x) := by
  rw [List.filter_map]
  apply congrArg
  apply List.filter_congr
  intro x hx
  simp only [Function.comp]
  by_cases hc : (x.Name == b0.Name && x.Namespace == b0.Namespace) = true
  · have hxr : x = b0 := by
      simp only [Bool.and_eq_true, beq_iff_eq] at hc
      exact List.inj_on_of_nodup_map hnd hx hb0 (by simp [hc.1, hc.2])
    simp only [hxr, beq_self_eq_true, Bool.and_self, if_true, hl, hn]
  · have hc' : (x.Name == b0.Name && x.Namespace == b0.Namespace) = false :=
      Bool.eq_false_iff.mpr hc
    simp only [hc', Bool.false_eq_true, if_false]

/-- Key substitution preserves the key list. -/
theorem keys_map_replace (l : List Role) (r0 r0' : Role)
    (hname : r0'.Name = r0.Name) (hns : r0'.Namespace = r0.Namespace) :
    (l.map (fun x => if x.Name == r0.Name && x.Namespace == r0.Namespace then r0' else x)).map
        (fun r => (r.Name, r.Namespace)) =
      l.map (fun r => (r.Name, r.Namespace)) := by
  rw [List.map_map]
  apply List.map_congr_left
  intro x _
  simp only [Function.comp]
  by_cases hc : (x.Name == r0.Name && x.Namespace == r0.Namespace) = true
  · simp only [Bool.and_eq_true, beq_iff_eq] at hc
    simp only [hc.1, hc.2, if_pos]
    simp [hname, hns, hc.1, hc.2]
  · have hc' : (x.Name == r0.Name && x.Namespace == r0.Namespace) = false :=
      Bool.eq_false_iff.mpr hc
    simp only [hc', Bool.false_eq_true, if_false]

/-- Binding analogue of `keys_map_replace`. -/
theorem keys_map_replaceRB (l : List RoleBinding) (b0 b0' : RoleBinding)
    (hname : b0'.Name = b0.Name) (hns : b0'.Namespace = b0.Namespace) :
    (l.map (fun x => if x.Name == b0.Name && x.Namespace == b0.Namespace then b0' else x)).map
        (fun b => (b.Name, b.Namespace)) =
      l.map (fun b => (b.Name, b.Namespace)) := by
  rw [List.map_map]
  apply List.map_congr_left
  intro x _
  simp only [Function.comp]
  by_cases hc : (x.Name == b0.Name && x.Namespace == b0.Namespace) = true
  · simp only [Bool.and_eq_true, beq_iff_eq] at hc
    simp only [hc.1, hc.2, if_pos]
    simp [hname, hns, hc.1, hc.2]
  · have hc' : (x.Name == b0.Name && x.Namespace == b0.Namespace) = false :=
      Bool.eq_false_iff.mpr hc
    simp only [hc', Bool.false_eq_true, if_false]

/-- Role convergence against an exact singleton match: one list call and
one unconditional update call, nothing else. -/
theorem ensureRole_run2 (cfg : Config) (ow : Ingress) (cr : aggregatedComponentRoute)
    (w : World) (r : Role) (hf : w.failures = [])
    (hr : rolesFor w cr.Hash = [r]) :
    ensureServiceCertKeyPairSecretRole cfg ow cr w =
      ({ w with callCount := w.callCount + 1 + 1,
                roles := w.roles.map (fun x =>
                  if x.Name == r.Name && x.Namespace == r.Namespace then
                    { r with Rules := (desiredRole cfg cr).Rules } else x) },
       [Op.listRoles (componentRouteResources cr),
        Op.updateRole { r with Rules := (desiredRole cfg cr).Rules }],
       .ok r.Name) := by
  have hmem : r ∈ w.roles := by
    have : r ∈ rolesFor w cr.Hash := by rw [hr]; exact List.mem_cons_self r _
    exact List.mem_of_mem_filter this
  have hkeep : (removeNamed [] w.roles).any (fun x =>
      x.Name == r.Name && x.Namespace == r.Namespace) = true :=
    List.any_eq_true.mpr ⟨r, hmem, by simp⟩
  exact ensureRole_existing cfg ow cr w r [] hf hr hkeep

/-- Role-binding convergence against an exact singleton match. -/
theorem ensureRoleBinding_run2 (cfg : Config) (ow : Ingress)
    (cr : aggregatedComponentRoute) (roleName : String) (w : World)
    (b : RoleBinding) (hf : w.failures = [])
    (hb : bindingsFor w cr.Hash = [b]) :
    ensureServiceCertKeyPairSecretRoleBinding cfg ow cr roleName w =
      ({ w with callCount := w.callCount + 1 + 1,
                roleBindings := w.roleBindings.map (fun x =>
                  if x.Name == b.Name && x.Namespace == b.Namespace then
                    { b with Subjects := (desiredRoleBinding cfg cr roleName).Subjects,
                             RoleRef := (desiredRoleBinding cfg cr roleName).RoleRef }
                  else x) },
       [Op.listRoleBindings (componentRouteResources cr),
        Op.updateRoleBinding
          { b with Subjects := (desiredRoleBinding cfg cr roleName).Subjects,
                   RoleRef := (desiredRoleBinding cfg cr roleName).RoleRef }],
       .ok ()) := by
  have hmem : b ∈ w.roleBindings := by
    have : b ∈ bindingsFor w cr.Hash := by rw [hb]; exact List.mem_cons_self b _
    exact List.mem_of_mem_filter this
  have hkeep : (removeNamedRB [] w.roleBindings).any (fun x =>
      x.Name == b.Name && x.Namespace == b.Namespace) = true :=
    List.any_eq_true.mpr ⟨b, hmem, by simp⟩
  exact ensureRoleBinding_existing cfg ow cr roleName w b [] hf hb hkeep

/-- The state a successful reconciliation leaves behind, and in which the
next run makes no create or delete call: no collaborator failures, a
well-formed cluster, exactly one role and one role binding per active
correlation hash, and no orphaned derived object. -/
structure Ready (crs : List aggregatedComponentRoute) (w : World) : Prop where
  hf : w.failures = []
  wfR : (w.roles.map (fun r => (r.Name, r.Namespace))).Nodup
  wfB : (w.roleBindings.map (fun b => (b.Name, b.Namespace))).Nodup
  singleR : ∀ cr ∈ crs, ∃ r, rolesFor w cr.Hash = [r]
  singleB : ∀ cr ∈ crs, ∃ b, bindingsFor w cr.Hash = [b]
  noorphR : ∀ r ∈ w.roles,
    orphaned (crs.map (fun c => c.Hash)) r.Labels r.Namespace = false
  noorphB : ∀ b ∈ w.roleBindings,
    orphaned (crs.map (fun c => c.Hash)) b.Labels b.Namespace = false

theorem rolesFor_update (w : World) (c : Nat) (r0 r0' : Role)
    (hl : r0'.Labels = r0.Labels) (hn : r0'.Namespace = r0.Namespace)
    (hnd : (w.roles.map (fun x => (x.Name, x.Namespace))).Nodup)
    (hr0 : r0 ∈ w.roles) (h : String) :
    rolesFor { w with callCount := c, roles := w.roles.map (fun x =>
        if x.Name == r0.Name && x.Namespace == r0.Namespace then r0' else x) } h =
      (rolesFor w h).map (fun x =>
        if x.Name == r0.Name && x.Namespace == r0.Namespace then r0' else x) :=
  filter_map_keyReplace w.roles r0 r0'
    (fun labels ns => matchesOptions labels ns (crOptions h)) hl hn hnd hr0

theorem bindingsFor_update (w : World) (c : Nat) (b0 b0' : RoleBinding)
    (hl : b0'.Labels = b0.Labels) (hn : b0'.Namespace = b0.Namespace)
    (hnd : (w.roleBindings.map (fun x => (x.Name, x.Namespace))).Nodup)
    (hb0 : b0 ∈ w.roleBindings) (h : String) :
    bindingsFor { w with callCount := c, roleBindings := w.roleBindings.map (fun x =>
        if x.Name == b0.Name && x.Namespace == b0.Namespace then b0' else x) } h =
      (bindingsFor w h).map (fun x =>
        if x.Name == b0.Name && x.Namespace == b0.Namespace then b0' else x) :=
  filter_map_keyReplaceRB w.roleBindings b0 b0'
    (fun labels ns => matchesOptions labels ns (crOptions h)) hl hn hnd hb0

/-- Updating one role in place (preserving its key, labels and namespace)
preserves the `Ready` invariant. -/
theorem Ready_roleUpdate (crs : List aggregatedComponentRoute) (w : World)
    (r0 r0' : Role) (hname : r0'.Name = r0.Name) (hl : r0'.Labels = r0.Labels)
    (hn : r0'.Namespace = r0.Namespace) (hR : Ready crs w) (hr0 : r0 ∈ w.roles)
    (c : Nat) :
    Ready crs { w with callCount := c, roles := w.roles.map (fun x =>
        if x.Name == r0.Name && x.Namespace == r0.Namespace then r0' else x) } := by
  refine ⟨hR.hf, ?_, hR.wfB, ?_, ?_, ?_, hR.noorphB⟩
  · rw [keys_map_replace w.roles r0 r0' hname hn]
    exact hR.wfR
  · intro cr hcr
    obtain ⟨r, hr⟩ := hR.singleR cr hcr
    refine ⟨if r.Name == r0.Name && r.Namespace == r0.Namespace then r0' else r, ?_⟩
    rw [rolesFor_update w c r0 r0' hl hn hR.wfR hr0 cr.Hash, hr, List.map_cons, List.map_nil]
  · intro cr hcr
    exact hR.singleB cr hcr
  · intro x hx
    obtain ⟨y, hy, hyx⟩ := List.mem_map.mp hx
    by_cases hc : (y.Name == r0.Name && y.Namespace == r0.Namespace) = true
    · rw [hc] at hyx
      simp only [if_true] at hyx
      subst hyx
      rw [hl, hn]
      exact hR.noorphR r0 hr0
    · have hc' : (y.Name == r0.Name && y.Namespace == r0.Namespace) = false :=
        Bool.eq_false_iff.mpr hc
      rw [hc'] at hyx
      simp only [Bool.false_eq_true, if_false] at hyx
      subst hyx
      exact hR.noorphR y hy

/-- Updating one role binding in place preserves the `Ready` invariant. -/
theorem Ready_bindingUpdate (crs : List aggregatedComponentRoute) (w : World)
    (b0 b0' : RoleBinding) (hname : b0'.Name = b0.Name)
    (hl : b0'.Labels = b0.Labels) (hn : b0'.Namespace = b0.Namespace)
    (hR : Ready crs w) (hb0 : b0 ∈ w.roleBindings) (c : Nat) :
    Ready crs { w with callCount := c, roleBindings := w.roleBindings.map (fun x =>
        if x.Name == b0.Name && x.Namespace == b0.Namespace then b0' else x) } := by
  refine ⟨hR.hf, hR.wfR, ?_, ?_, ?_, hR.noorphR, ?_⟩
  · rw [keys_map_replaceRB w.roleBindings b0 b0' hname hn]
    exact hR.wfB
  · intro cr hcr
    exact hR.singleR cr hcr
  · intro cr hcr
    obtain ⟨b, hb⟩ := hR.singleB cr hcr
    refine ⟨if b.Name == b0.Name && b.Namespace == b0.Namespace then b0' else b, ?_⟩
    rw [bindingsFor_update w c b0 b0' hl hn hR.wfB hb0 cr.Hash, hb, List.map_cons, List.map_nil]
  · intro x hx
    obtain ⟨y, hy, hyx⟩ := List.mem_map.mp hx
    by_cases hc : (y.Name == b0.Name && y.Namespace == b0.Namespace) = true
    · rw [hc] at hyx
      simp only [if_true] at hyx
      subst hyx
      rw [hl, hn]
      exact hR.noorphB b0 hb0
    · have hc' : (y.Name == b0.Name && y.Namespace == b0.Namespace) = false :=
        Bool.eq_false_iff.mpr hc
      rw [hc'] at hyx
      simp only [Bool.false_eq_true, if_false] at hyx
      subst hyx
      exact hR.noorphB y hy

/-- In a `Ready` state, the per-target convergence loop issues only list
and (unconditional) update calls — no create and no delete — succeeds, and
leaves the state `Ready`. -/
theorem ensureAll_run2 (cfg : Config) (ow : Ingress)
    (crs : List aggregatedComponentRoute) :
    ∀ (todo : List aggregatedComponentRoute) (w : World),
    (∀ cr ∈ todo, cr ∈ crs) → Ready crs w →
    (ensureAll cfg ow todo w).2.2 = .ok () ∧
    ((ensureAll cfg ow todo w).2.1.all (fun op => !(op.isCreateOrDelete))) = true ∧
    Ready crs (ensureAll cfg ow todo w).1 ∧
    (ensureAll cfg ow todo w).1.ingresses = w.ingresses := by
  intro todo
  induction todo with
  | nil => intro w hsub hR; exact ⟨rfl, rfl, hR, rfl⟩
  | cons cr rest ih =>
    intro w hsub hR
    obtain ⟨r, hr⟩ := hR.singleR cr (hsub cr (List.mem_cons_self cr rest))
    have hrmem : r ∈ w.roles := by
      have : r ∈ rolesFor w cr.Hash := by rw [hr]; exact List.mem_cons_self r _
      exact List.mem_of_mem_filter this
    have hstep := ensureRole_run2 cfg ow cr w r hR.hf hr
    have h1 : (ensureServiceCertKeyPairSecretRole cfg ow cr w).2.2 = .ok r.Name := by
      rw [hstep]
    have hR1 : Ready crs (ensureServiceCertKeyPairSecretRole cfg ow cr w).1 := by
      rw [hstep]
      exact Ready_roleUpdate crs w r { r with Rules := (desiredRole cfg cr).Rules }
        rfl rfl rfl hR hrmem _
    have hops1 : ((ensureServiceCertKeyPairSecretRole cfg ow cr w).2.1.all
        (fun op => !(op.isCreateOrDelete))) = true := by
      rw [hstep]
      rfl
    have hing1 : (ensureServiceCertKeyPairSecretRole cfg ow cr w).1.ingresses =
        w.ingresses := by
      rw [hstep]
    obtain ⟨b, hb⟩ :=
      hR1.singleB cr (hsub cr (List.mem_cons_self cr rest))
    have hbmem : b ∈ (ensureServiceCertKeyPairSecretRole cfg ow cr w).1.roleBindings := by
      have : b ∈ bindingsFor (ensureServiceCertKeyPairSecretRole cfg ow cr w).1 cr.Hash := by
        rw [hb]; exact List.mem_cons_self b _
      exact List.mem_of_mem_filter this
    have hstep2 := ensureRoleBinding_run2 cfg ow cr r.Name
      (ensureServiceCertKeyPairSecretRole cfg ow cr w).1 b hR1.hf hb
    have h2 : (ensureServiceCertKeyPairSecretRoleBinding cfg ow cr r.Name
        (ensureServiceCertKeyPairSecretRole cfg ow cr w).1).2.2 = .ok () := by
      rw [hstep2]
    have hR2 : Ready crs (ensureServiceCertKeyPairSecretRoleBinding cfg ow cr r.Name
        (ensureServiceCertKeyPairSecretRole cfg ow cr w).1).1 := by
      rw [hstep2]
      exact Ready_bindingUpdate crs (ensureServiceCertKeyPairSecretRole cfg ow cr w).1 b
        { b with Subjects := (desiredRoleBinding cfg cr r.Name).Subjects,
                 RoleRef := (desiredRoleBinding cfg cr r.Name).RoleRef }
        rfl rfl rfl hR1 hbmem _
    have hops2 : ((ensureServiceCertKeyPairSecretRoleBinding cfg ow cr r.Name
        (ensureServiceCertKeyPairSecretRole cfg ow cr w).1).2.1.all
        (fun op => !(op.isCreateOrDelete))) = true := by
      rw [hstep2]
      rfl
    have hing2 : (ensureServiceCertKeyPairSecretRoleBinding cfg ow cr r.Name
        (ensureServiceCertKeyPairSecretRole cfg ow cr w).1).1.ingresses =
        (ensureServiceCertKeyPairSecretRole cfg ow cr w).1.ingresses := by
      rw [hstep2]
    have hsubrest : ∀ c ∈ rest, c ∈ crs := fun c hc => hsub c (List.mem_cons_of_mem cr hc)
    have hrec := ih (ensureServiceCertKeyPairSecretRoleBinding cfg ow cr r.Name
      (ensureServiceCertKeyPairSecretRole cfg ow cr w).1).1 hsubrest hR2
    simp only [ensureAll, h1, h2]
    refine ⟨hrec.1, ?_, hrec.2.2.1, ?_⟩
    · simp only [List.all_append, hops1, hops2, hrec.2.1, Bool.and_self]
    · rw [hrec.2.2.2, hing2, hing1]

theorem filter_swap {α : Type} (p q : α → Bool) (l : List α) :
    (l.filter p).filter q = (l.filter q).filter p := by
  rw [List.filter_filter, List.filter_filter]
  apply List.filter_congr
  intro x _
  exact Bool.and_comm _ _

/-- An object cannot match the correlation-label query for two different
hashes. -/
theorem match_unique (labels : List (String × String)) (ns : String)
    (h h' : String)
    (h1 : matchesOptions labels ns (crOptions h) = true)
    (h2 : matchesOptions labels ns (crOptions h') = true) : h = h' := by
  rw [matchesOptions_crOptions, Bool.and_eq_true] at h1 h2
  have e1 := beq_iff_eq.mp h1.1
  have e2 := beq_iff_eq.mp h2.1
  rw [e1] at e2
  exact Option.some.injEq _ _ ▸ e2

theorem map_keyReplace_id (l : List Role) (r0 r0' : Role)
    (hall : ∀ x ∈ l, (x.Name == r0.Name && x.Namespace == r0.Namespace) = false) :
    l.map (fun x => if x.Name == r0.Name && x.Namespace == r0.Namespace then r0' else x) = l := by
  have : l.map (fun x => if x.Name == r0.Name && x.Namespace == r0.Namespace then r0' else x) =
      l.map (fun x => x) := by
    apply List.map_congr_left
    intro x hx
    rw [hall x hx]
    simp
  rw [this]
  exact List.map_id' l

theorem map_keyReplaceRB_id (l : List RoleBinding) (b0 b0' : RoleBinding)
    (hall : ∀ x ∈ l, (x.Name == b0.Name && x.Namespace == b0.Namespace) = false) :
    l.map (fun x => if x.Name == b0.Name && x.Namespace == b0.Namespace then b0' else x) = l := by
  have : l.map (fun x => if x.Name == b0.Name && x.Namespace == b0.Namespace then b0' else x) =
      l.map (fun x => x) := by
    apply List.map_congr_left
    intro x hx
    rw [hall x hx]
    simp
  rw [this]
  exact List.map_id' l

/-- Every listed match is a member of the cluster and matches the query. -/
theorem rolesFor_mem (w : World) (h : String) (x : Role)
    (hx : x ∈ rolesFor w h) :
    x ∈ w.roles ∧ matchesOptions x.Labels x.Namespace (crOptions h) = true := by
  have hx' : x ∈ w.roles.filter (fun r =>
      matchesOptions r.Labels r.Namespace (crOptions h)) := hx
  exact List.mem_filter.mp hx' 

theorem bindingsFor_mem (w : World) (h : String) (x : RoleBinding)
    (hx : x ∈ bindingsFor w h) :
    x ∈ w.roleBindings ∧ matchesOptions x.Labels x.Namespace (crOptions h) = true := by
  have hx' : x ∈ w.roleBindings.filter (fun b =>
      matchesOptions b.Labels b.Namespace (crOptions h)) := hx
  exact List.mem_filter.mp hx' 

/-- The canonical match's key does not recur among the other matches. -/
theorem head_fresh (w : World) (h : String) (r0 : Role) (rest : List Role)
    (hWFr : (w.roles.map (fun x => (x.Name, x.Namespace))).Nodup)
    (hr : rolesFor w h = r0 :: rest) :
    (rest.any (fun x => r0.Name == x.Name && r0.Namespace == x.Namespace)) = false := by
  have hsub : (r0 :: rest).Sublist w.roles := by
    rw [← hr]
    exact List.filter_sublist w.roles
  have hnd0 : ((r0 :: rest).map (fun x => (x.Name, x.Namespace))).Nodup :=
    (hsub.map (fun x => (x.Name, x.Namespace))).nodup hWFr
  apply List.any_eq_false.mpr
  intro x hx hmatch
  simp only [Bool.and_eq_true, beq_iff_eq] at hmatch
  have hhead := (List.nodup_cons.mp (List.map_cons _ r0 rest ▸ hnd0)).1
  apply hhead
  have hm : (x.Name, x.Namespace) ∈ rest.map (fun x => (x.Name, x.Namespace)) :=
    List.mem_map_of_mem _ hx
  rwa [← hmatch.1, ← hmatch.2] at hm

theorem head_freshRB (w : World) (h : String) (b0 : RoleBinding)
    (rest : List RoleBinding)
    (hWFb : (w.roleBindings.map (fun x => (x.Name, x.Namespace))).Nodup)
    (hb : bindingsFor w h = b0 :: rest) :
    (rest.any (fun x => b0.Name == x.Name && b0.Namespace == x.Namespace)) = false := by
  have hsub : (b0 :: rest).Sublist w.roleBindings := by
    rw [← hb]
    exact List.filter_sublist w.roleBindings
  have hnd0 : ((b0 :: rest).map (fun x => (x.Name, x.Namespace))).Nodup :=
    (hsub.map (fun x => (x.Name, x.Namespace))).nodup hWFb
  apply List.any_eq_false.mpr
  intro x hx hmatch
  simp only [Bool.and_eq_true, beq_iff_eq] at hmatch
  have hhead := (List.nodup_cons.mp (List.map_cons _ b0 rest ▸ hnd0)).1
  apply hhead
  have hm : (x.Name, x.Namespace) ∈ rest.map (fun x => (x.Name, x.Namespace)) :=
    List.mem_map_of_mem _ hx
  rwa [← hmatch.1, ← hmatch.2] at hm

/-- The canonical match survives the duplicate deletions. -/
theorem head_keep (w : World) (h : String) (r0 : Role) (rest : List Role)
    (hWFr : (w.roles.map (fun x => (x.Name, x.Namespace))).Nodup)
    (hr : rolesFor w h = r0 :: rest) :
    (removeNamed rest w.roles).any (fun x =>
      x.Name == r0.Name && x.Namespace == r0.Namespace) = true := by
  rw [removeNamed_eq_filter]
  apply List.any_eq_true.mpr
  have hr0 : r0 ∈ w.roles :=
    (rolesFor_mem w h r0 (by rw [hr]; exact List.mem_cons_self r0 rest)).1
  refine ⟨r0, List.mem_filter.mpr ⟨hr0, ?_⟩, by simp⟩
  rw [head_fresh w h r0 rest hWFr hr]
  rfl

theorem head_keepRB (w : World) (h : String) (b0 : RoleBinding)
    (rest : List RoleBinding)
    (hWFb : (w.roleBindings.map (fun x => (x.Name, x.Namespace))).Nodup)
    (hb : bindingsFor w h = b0 :: rest) :
    (removeNamedRB rest w.roleBindings).any (fun x =>
      x.Name == b0.Name && x.Namespace == b0.Namespace) = true := by
  rw [removeNamedRB_eq_filter]
  apply List.any_eq_true.mpr
  have hb0 : b0 ∈ w.roleBindings :=
    (bindingsFor_mem w h b0 (by rw [hb]; exact List.mem_cons_self b0 rest)).1
  refine ⟨b0, List.mem_filter.mpr ⟨hb0, ?_⟩, by simp⟩
  rw [head_freshRB w h b0 rest hWFb hb]
  rfl

/-- The non-canonical matches all remove themselves. -/
theorem rest_self_filter (rest : List Role) :
    rest.filter (fun x =>
      !(rest.any (fun y => x.Name == y.Name && x.Namespace == y.Namespace))) = [] := by
  apply List.filter_eq_nil.mpr
  intro x hx
  have : rest.any (fun y => x.Name == y.Name && x.Namespace == y.Namespace) = true :=
    List.any_eq_true.mpr ⟨x, hx, by simp⟩
  simp [this]

theorem rest_self_filterRB (rest : List RoleBinding) :
    rest.filter (fun x =>
      !(rest.any (fun y => x.Name == y.Name && x.Namespace == y.Namespace))) = [] := by
  apply List.filter_eq_nil.mpr
  intro x hx
  have : rest.any (fun y => x.Name == y.Name && x.Namespace == y.Namespace) = true :=
    List.any_eq_true.mpr ⟨x, hx, by simp⟩
  simp [this]

theorem ensureRole_create_clash (cfg : Config) (ow : Ingress)
    (cr : aggregatedComponentRoute) (w : World) (hf : w.failures = [])
    (h0 : rolesFor w cr.Hash = [])
    (hclash : w.roles.any (fun x => x.Name == cr.Name ++ "-" ++ toString w.counter &&
        x.Namespace == cfg.SecretNamespace) = true) :
    ensureServiceCertKeyPairSecretRole cfg ow cr w =
      ({ w with callCount := w.callCount + 1 + 1 },
       [Op.listRoles (componentRouteResources cr), Op.createRole (desiredRole cfg cr)],
       .error .alreadyExists) := by
  have hee : (("" : String) == "") = true := rfl
  simp only [ensureServiceCertKeyPairSecretRole, listRoles_cr cr hf, h0]
  simp only [createRole, World.step, World.nextFailure, hf, List.lookup_nil]
  simp only [desiredRole, hee, if_true]
  simp only [hclash, if_true]

theorem ensureRoleBinding_create_clash (cfg : Config) (ow : Ingress)
    (cr : aggregatedComponentRoute) (roleName : String) (w : World)
    (hf : w.failures = []) (h0 : bindingsFor w cr.Hash = [])
    (hclash : w.roleBindings.any (fun x => x.Name == roleName &&
        x.Namespace == cfg.SecretNamespace) = true) :
    ensureServiceCertKeyPairSecretRoleBinding cfg ow cr roleName w =
      ({ w with callCount := w.callCount + 1 + 1 },
       [Op.listRoleBindings (componentRouteResources cr),
        Op.createRoleBinding (desiredRoleBinding cfg cr roleName)],
       .error .alreadyExists) := by
  simp only [ensureServiceCertKeyPairSecretRoleBinding, listRoleBindings_cr cr hf, h0]
  simp only [createRoleBinding, World.step, World.nextFailure, hf, List.lookup_nil]
  simp only [desiredRoleBinding, hclash, if_true]

/-- After deduplication and update, the query for the target's hash sees
exactly the updated canonical object. -/
theorem dedup_singleton (w : World) (h : String) (r0 r0' : Role)
    (rest : List Role) (hl : r0'.Labels = r0.Labels)
    (hn : r0'.Namespace = r0.Namespace)
    (hWFr : (w.roles.map (fun x => (x.Name, x.Namespace))).Nodup)
    (hr : rolesFor w h = r0 :: rest) :
    ((removeNamed rest w.roles).map (fun x =>
        if x.Name == r0.Name && x.Namespace == r0.Namespace then r0' else x)).filter
      (fun x => matchesOptions x.Labels x.Namespace (crOptions h)) = [r0'] := by
  have hnd2 : ((w.roles.filter (fun x =>
      !(rest.any (fun y => x.Name == y.Name && x.Namespace == y.Namespace)))).map
        (fun x => (x.Name, x.Namespace))).Nodup :=
    ((List.filter_sublist w.roles).map _).nodup hWFr
  have hr0mem : r0 ∈ w.roles :=
    (rolesFor_mem w h r0 (by rw [hr]; exact List.mem_cons_self r0 rest)).1
  have hfresh := head_fresh w h r0 rest hWFr hr
  have hr0mem2 : r0 ∈ w.roles.filter (fun x =>
      !(rest.any (fun y => x.Name == y.Name && x.Namespace == y.Namespace))) :=
    List.mem_filter.mpr ⟨hr0mem, by rw [hfresh]; rfl⟩
  rw [removeNamed_eq_filter,
    filter_map_keyReplace _ r0 r0'
      (fun labels ns => matchesOptions labels ns (crOptions h)) hl hn hnd2 hr0mem2,
    filter_swap]
  rw [show w.roles.filter (fun x =>
      matchesOptions x.Labels x.Namespace (crOptions h)) = r0 :: rest from hr]
  rw [List.filter_cons]
  simp only [hfresh, Bool.not_false, if_true]
  rw [rest_self_filter rest]
  simp

/-- After deduplication and update, queries for other hashes are
untouched. -/
theorem dedup_frame (w : World) (h : String) (r0 r0' : Role)
    (rest : List Role) (hl : r0'.Labels = r0.Labels)
    (hn : r0'.Namespace = r0.Namespace)
    (hWFr : (w.roles.map (fun x => (x.Name, x.Namespace))).Nodup)
    (hr : rolesFor w h = r0 :: rest) (h' : String) (hne : h' ≠ h) :
    ((removeNamed rest w.roles).map (fun x =>
        if x.Name == r0.Name && x.Namespace == r0.Namespace then r0' else x)).filter
      (fun x => matchesOptions x.Labels x.Namespace (crOptions h')) =
      rolesFor w h' := by
  have hnd2 : ((w.roles.filter (fun x =>
      !(rest.any (fun y => x.Name == y.Name && x.Namespace == y.Namespace)))).map
        (fun x => (x.Name, x.Namespace))).Nodup :=
    ((List.filter_sublist w.roles).map _).nodup hWFr
  have hr0mem : r0 ∈ w.roles :=
    (rolesFor_mem w h r0 (by rw [hr]; exact List.mem_cons_self r0 rest)).1
  have hfresh := head_fresh w h r0 rest hWFr hr
  have hr0mem2 : r0 ∈ w.roles.filter (fun x =>
      !(rest.any (fun y => x.Name == y.Name && x.Namespace == y.Namespace))) :=
    List.mem_filter.mpr ⟨hr0mem, by rw [hfresh]; rfl⟩
  have hr0match : matchesOptions r0.Labels r0.Namespace (crOptions h) = true :=
    (rolesFor_mem w h r0 (by rw [hr]; exact List.mem_cons_self r0 rest)).2
  rw [removeNamed_eq_filter,
    filter_map_keyReplace _ r0 r0'
      (fun labels ns => matchesOptions labels ns (crOptions h')) hl hn hnd2 hr0mem2,
    filter_swap]
  have hself : (w.roles.filter (fun x =>
        matchesOptions x.Labels x.Namespace (crOptions h'))).filter (fun x =>
        !(rest.any (fun y => x.Name == y.Name && x.Namespace == y.Namespace))) =
      w.roles.filter (fun x => matchesOptions x.Labels x.Namespace (crOptions h')) := by
    apply List.filter_eq_self.mpr
    intro y hy
    cases hqy : rest.any (fun z => y.Name == z.Name && y.Namespace == z.Namespace) with
    | false => simp [hqy]
    | true =>
      exfalso
      obtain ⟨x, hx, hxeq⟩ := List.any_eq_true.mp hqy
      have hxm : x ∈ rolesFor w h := by
        rw [hr]; exact List.mem_cons_of_mem r0 hx
      have hxw : x ∈ w.roles := (rolesFor_mem w h x hxm).1
      have hyw : y ∈ w.roles := (List.mem_filter.mp hy).1
      have hyx : y = x := by
        apply List.inj_on_of_nodup_map hWFr hyw hxw
        simp only [Bool.and_eq_true, beq_iff_eq] at hxeq
        simp [hxeq.1, hxeq.2]
      have hmh : matchesOptions y.Labels y.Namespace (crOptions h) = true := by
        rw [hyx]; exact (rolesFor_mem w h x hxm).2
      have hmh' : matchesOptions y.Labels y.Namespace (crOptions h') = true :=
        (List.mem_filter.mp hy).2
      exact hne (match_unique y.Labels y.Namespace h' h hmh' hmh)
  rw [hself]
  apply map_keyReplace_id
  intro y hy
  cases hc : (y.Name == r0.Name && y.Namespace == r0.Namespace) with
  | false => rfl
  | true =>
    exfalso
    have hyw : y ∈ w.roles := (List.mem_filter.mp hy).1
    have hyr : y = r0 := by
      apply List.inj_on_of_nodup_map hWFr hyw hr0mem
      simp only [Bool.and_eq_true, beq_iff_eq] at hc
      simp [hc.1, hc.2]
    have hmh' : matchesOptions y.Labels y.Namespace (crOptions h') = true :=
      (List.mem_filter.mp hy).2
    have hmh : matchesOptions y.Labels y.Namespace (crOptions h) = true := by
      rw [hyr]; exact hr0match
    exact hne (match_unique y.Labels y.Namespace h' h hmh' hmh)

/-- Binding analogue of `dedup_singleton`. -/
theorem dedup_singletonRB (w : World) (h : String) (b0 b0' : RoleBinding)
    (rest : List RoleBinding) (hl : b0'.Labels = b0.Labels)
    (hn : b0'.Namespace = b0.Namespace)
    (hWFb : (w.roleBindings.map (fun x => (x.Name, x.Namespace))).Nodup)
    (hb : bindingsFor w h = b0 :: rest) :
    ((removeNamedRB rest w.roleBindings).map (fun x =>
        if x.Name == b0.Name && x.Namespace == b0.Namespace then b0' else x)).filter
      (fun x => matchesOptions x.Labels x.Namespace (crOptions h)) = [b0'] := by
  have hnd2 : ((w.roleBindings.filter (fun x =>
      !(rest.any (fun y => x.Name == y.Name && x.Namespace == y.Namespace)))).map
        (fun x => (x.Name, x.Namespace))).Nodup :=
    ((List.filter_sublist w.roleBindings).map _).nodup hWFb
  have hb0mem : b0 ∈ w.roleBindings :=
    (bindingsFor_mem w h b0 (by rw [hb]; exact List.mem_cons_self b0 rest)).1
  have hfresh := head_freshRB w h b0 rest hWFb hb
  have hb0mem2 : b0 ∈ w.roleBindings.filter (fun x =>
      !(rest.any (fun y => x.Name == y.Name && x.Namespace == y.Namespace))) :=
    List.mem_filter.mpr ⟨hb0mem, by rw [hfresh]; rfl⟩
  rw [removeNamedRB_eq_filter,
    filter_map_keyReplaceRB _ b0 b0'
      (fun labels ns => matchesOptions labels ns (crOptions h)) hl hn hnd2 hb0mem2,
    filter_swap]
  rw [show w.roleBindings.filter (fun x =>
      matchesOptions x.Labels x.Namespace (crOptions h)) = b0 :: rest from hb]
  rw [List.filter_cons]
  simp only [hfresh, Bool.not_false, if_true]
  rw [rest_self_filterRB rest]
  simp

/-- Binding analogue of `dedup_frame`. -/
theorem dedup_frameRB (w : World) (h : String) (b0 b0' : RoleBinding)
    (rest : List RoleBinding) (hl : b0'.Labels = b0.Labels)
    (hn : b0'.Namespace = b0.Namespace)
    (hWFb : (w.roleBindings.map (fun x => (x.Name, x.Namespace))).Nodup)
    (hb : bindingsFor w h = b0 :: rest) (h' : String) (hne : h' ≠ h) :
    ((removeNamedRB rest w.roleBindings).map (fun x =>
        if x.Name == b0.Name && x.Namespace == b0.Namespace then b0' else x)).filter
      (fun x => matchesOptions x.Labels x.Namespace (crOptions h')) =
      bindingsFor w h' := by
  have hnd2 : ((w.roleBindings.filter (fun x =>
      !(rest.any (fun y => x.Name == y.Name && x.Namespace == y.Namespace)))).map
        (fun x => (x.Name, x.Namespace))).Nodup :=
    ((List.filter_sublist w.roleBindings).map _).nodup hWFb
  have hb0mem : b0 ∈ w.roleBindings :=
    (bindingsFor_mem w h b0 (by rw [hb]; exact List.mem_cons_self b0 rest)).1
  have hfresh := head_freshRB w h b0 rest hWFb hb
  have hb0mem2 : b0 ∈ w.roleBindings.filter (fun x =>
      !(rest.any (fun y => x.Name == y.Name && x.Namespace == y.Namespace))) :=
    List.mem_filter.mpr ⟨hb0mem, by rw [hfresh]; rfl⟩
  have hb0match : matchesOptions b0.Labels b0.Namespace (crOptions h) = true :=
    (bindingsFor_mem w h b0 (by rw [hb]; exact List.mem_cons_self b0 rest)).2
  rw [removeNamedRB_eq_filter,
    filter_map_keyReplaceRB _ b0 b0'
      (fun labels ns => matchesOptions labels ns (crOptions h')) hl hn hnd2 hb0mem2,
    filter_swap]
  have hself : (w.roleBindings.filter (fun x =>
        matchesOptions x.Labels x.Namespace (crOptions h'))).filter (fun x =>
        !(rest.any (fun y => x.Name == y.Name && x.Namespace == y.Namespace))) =
      w.roleBindings.filter (fun x =>
        matchesOptions x.Labels x.Namespace (crOptions h')) := by
    apply List.filter_eq_self.mpr
    intro y hy
    cases hqy : rest.any (fun z => y.Name == z.Name && y.Namespace == z.Namespace) with
    | false => simp [hqy]
    | true =>
      exfalso
      obtain ⟨x, hx, hxeq⟩ := List.any_eq_true.mp hqy
      have hxm : x ∈ bindingsFor w h := by
        rw [hb]; exact List.mem_cons_of_mem b0 hx
      have hxw : x ∈ w.roleBindings := (bindingsFor_mem w h x hxm).1
      have hyw : y ∈ w.roleBindings := (List.mem_filter.mp hy).1
      have hyx : y = x := by
        apply List.inj_on_of_nodup_map hWFb hyw hxw
        simp only [Bool.and_eq_true, beq_iff_eq] at hxeq
        simp [hxeq.1, hxeq.2]
      have hmh : matchesOptions y.Labels y.Namespace (crOptions h) = true := by
        rw [hyx]; exact (bindingsFor_mem w h x hxm).2
      have hmh' : matchesOptions y.Labels y.Namespace (crOptions h') = true :=
        (List.mem_filter.mp hy).2
      exact hne (match_unique y.Labels y.Namespace h' h hmh' hmh)
  rw [hself]
  apply map_keyReplaceRB_id
  intro y hy
  cases hc : (y.Name == b0.Name && y.Namespace == b0.Namespace) with
  | false => rfl
  | true =>
    exfalso
    have hyw : y ∈ w.roleBindings := (List.mem_filter.mp hy).1
    have hyb : y = b0 := by
      apply List.inj_on_of_nodup_map hWFb hyw hb0mem
      simp only [Bool.and_eq_true, beq_iff_eq] at hc
      simp [hc.1, hc.2]
    have hmh' : matchesOptions y.Labels y.Namespace (crOptions h') = true :=
      (List.mem_filter.mp hy).2
    have hmh : matchesOptions y.Labels y.Namespace (crOptions h) = true := by
      rw [hyb]; exact hb0match
    exact hne (match_unique y.Labels y.Namespace h' h hmh' hmh)

theorem rolesFor_congr (w1 w2 : World) (h : String) (he : w1.roles = w2.roles) :
    rolesFor w1 h = rolesFor w2 h := by
  unfold rolesFor
  rw [he]

theorem bindingsFor_congr (w1 w2 : World) (h : String)
    (he : w1.roleBindings = w2.roleBindings) :
    bindingsFor w1 h = bindingsFor w2 h := by
  unfold bindingsFor
  rw [he]

/-- Postcondition of role convergence with no failure injection: on
success the resulting collaborator state is still failure-free, the
ingresses and role bindings are untouched, role keys remain unique,
exactly one role answers the target's correlation-label query, and the
queries for every other hash are unchanged. -/
theorem ensureRole_post (cfg : Config) (ow : Ingress)
    (cr : aggregatedComponentRoute) (w : World) (hf : w.failures = [])
    (hWFr : (w.roles.map (fun x => (x.Name, x.Namespace))).Nodup)
    (hcfg : cfg.SecretNamespace = OpenShiftConfigNamespace)
    (hok : ∃ name, (ensureServiceCertKeyPairSecretRole cfg ow cr w).2.2 = .ok name) :
    (ensureServiceCertKeyPairSecretRole cfg ow cr w).1.failures = [] ∧
    (ensureServiceCertKeyPairSecretRole cfg ow cr w).1.ingresses = w.ingresses ∧
    (ensureServiceCertKeyPairSecretRole cfg ow cr w).1.roleBindings = w.roleBindings ∧
    ((ensureServiceCertKeyPairSecretRole cfg ow cr w).1.roles.map
      (fun x => (x.Name, x.Namespace))).Nodup ∧
    (∃ r, rolesFor (ensureServiceCertKeyPairSecretRole cfg ow cr w).1 cr.Hash = [r]) ∧
    (∀ h', h' ≠ cr.Hash →
      rolesFor (ensureServiceCertKeyPairSecretRole cfg ow cr w).1 h' = rolesFor w h') := by
  cases hr : rolesFor w cr.Hash with
  | nil =>
    cases hclash : w.roles.any (fun x => x.Name == cr.Name ++ "-" ++ toString w.counter &&
        x.Namespace == cfg.SecretNamespace) with
    | true =>
      exfalso
      obtain ⟨name, hname⟩ := hok
      rw [ensureRole_create_clash cfg ow cr w hf hr hclash] at hname
      exact Except.noConfusion hname
    | false =>
      rw [ensureRole_create cfg ow cr w hf hr hclash]
      dsimp only [rolesFor]
      have e2 : ∀ h' : String,
          matchesOptions ({ desiredRole cfg cr with
              Name := cr.Name ++ "-" ++ toString w.counter } : Role).Labels
            ({ desiredRole cfg cr with
              Name := cr.Name ++ "-" ++ toString w.counter } : Role).Namespace
            (crOptions h') =
          ((cr.Hash == h') && true) := by
        intro h'
        rw [matchesOptions_crOptions]
        show (([(componentRouteHashLabelKey, cr.Hash)].lookup
            componentRouteHashLabelKey == some h') &&
          (cfg.SecretNamespace == OpenShiftConfigNamespace)) = ((cr.Hash == h') && true)
        rw [hcfg]
        simp [List.lookup]
      refine ⟨hf, rfl, rfl, ?_, ?_, ?_⟩
      · rw [List.map_append]
        refine List.Nodup.append hWFr (by simp) ?_
        intro a ha hb
        simp only [List.map_cons, List.map_nil, List.mem_singleton] at hb
        subst hb
        obtain ⟨x, hx, hxa⟩ := List.mem_map.mp ha
        have hcl : w.roles.any (fun y =>
            y.Name == cr.Name ++ "-" ++ toString w.counter &&
              y.Namespace == cfg.SecretNamespace) = true := by
          apply List.any_eq_true.mpr
          refine ⟨x, hx, ?_⟩
          have h1 := congrArg Prod.fst hxa
          have h2 := congrArg Prod.snd hxa
          simp only at h1 h2
          simp [h1, h2, desiredRole]
        rw [hclash] at hcl
        exact Bool.noConfusion hcl
      · refine ⟨{ desiredRole cfg cr with
            Name := cr.Name ++ "-" ++ toString w.counter }, ?_⟩
        rw [List.filter_append]
        have e1 : w.roles.filter (fun r =>
            matchesOptions r.Labels r.Namespace (crOptions cr.Hash)) = [] := hr
        rw [e1, List.filter_cons, e2 cr.Hash]
        simp
      · intro h' hne
        rw [List.filter_append, List.filter_cons, e2 h']
        have hne' : (cr.Hash == h') = false :=
          beq_eq_false_iff_ne.mpr (fun hc => hne hc.symm)
        rw [hne']
        simp only [Bool.false_and, Bool.false_eq_true, if_false, List.filter_nil,
          List.append_nil]
  | cons r0 rest =>
    have hkeep := head_keep w cr.Hash r0 rest hWFr hr
    rw [ensureRole_existing cfg ow cr w r0 rest hf hr hkeep]
    dsimp only [rolesFor]
    refine ⟨hf, rfl, rfl, ?_, ?_, ?_⟩
    · rw [keys_map_replace (removeNamed rest w.roles) r0
        { r0 with Rules := (desiredRole cfg cr).Rules } rfl rfl]
      rw [removeNamed_eq_filter]
      exact ((List.filter_sublist w.roles).map _).nodup hWFr
    · exact ⟨{ r0 with Rules := (desiredRole cfg cr).Rules },
        dedup_singleton w cr.Hash r0 { r0 with Rules := (desiredRole cfg cr).Rules }
          rest rfl rfl hWFr hr⟩
    · intro h' hne
      exact dedup_frame w cr.Hash r0 { r0 with Rules := (desiredRole cfg cr).Rules }
        rest rfl rfl hWFr hr h' hne

/-- Binding analogue of `ensureRole_post`: on success the state is still
failure-free, ingresses and roles are untouched, binding keys remain
unique, exactly one binding answers the target's query, and queries for
every other hash are unchanged. -/
theorem ensureRoleBinding_post (cfg : Config) (ow : Ingress)
    (cr : aggregatedComponentRoute) (roleName : String) (w : World)
    (hf : w.failures = [])
    (hWFb : (w.roleBindings.map (fun x => (x.Name, x.Namespace))).Nodup)
    (hcfg : cfg.SecretNamespace = OpenShiftConfigNamespace)
    (hok : (ensureServiceCertKeyPairSecretRoleBinding cfg ow cr roleName w).2.2 = .ok ()) :
    (ensureServiceCertKeyPairSecretRoleBinding cfg ow cr roleName w).1.failures = [] ∧
    (ensureServiceCertKeyPairSecretRoleBinding cfg ow cr roleName w).1.ingresses =
      w.ingresses ∧
    (ensureServiceCertKeyPairSecretRoleBinding cfg ow cr roleName w).1.roles = w.roles ∧
    ((ensureServiceCertKeyPairSecretRoleBinding cfg ow cr roleName w).1.roleBindings.map
      (fun x => (x.Name, x.Namespace))).Nodup ∧
    (∃ b, bindingsFor (ensureServiceCertKeyPairSecretRoleBinding cfg ow cr roleName w).1
      cr.Hash = [b]) ∧
    (∀ h', h' ≠ cr.Hash →
      bindingsFor (ensureServiceCertKeyPairSecretRoleBinding cfg ow cr roleName w).1 h' =
        bindingsFor w h') := by
  cases hb : bindingsFor w cr.Hash with
  | nil =>
    cases hclash : w.roleBindings.any (fun x => x.Name == roleName &&
        x.Namespace == cfg.SecretNamespace) with
    | true =>
      exfalso
      rw [ensureRoleBinding_create_clash cfg ow cr roleName w hf hb hclash] at hok
      exact Except.noConfusion hok
    | false =>
      rw [ensureRoleBinding_create cfg ow cr roleName w hf hb hclash]
      dsimp only [bindingsFor]
      have e2 : ∀ h' : String,
          matchesOptions (desiredRoleBinding cfg cr roleName).Labels
            (desiredRoleBinding cfg cr roleName).Namespace (crOptions h') =
          ((cr.Hash == h') && true) := by
        intro h'
        rw [matchesOptions_crOptions]
        show (([(componentRouteHashLabelKey, cr.Hash)].lookup
            componentRouteHashLabelKey == some h') &&
          (cfg.SecretNamespace == OpenShiftConfigNamespace)) = ((cr.Hash == h') && true)
        rw [hcfg]
        simp [List.lookup]
      refine ⟨hf, rfl, rfl, ?_, ?_, ?_⟩
      · rw [List.map_append]
        refine List.Nodup.append hWFb (by simp) ?_
        intro a ha hmem
        simp only [List.map_cons, List.map_nil, List.mem_singleton] at hmem
        subst hmem
        obtain ⟨x, hx, hxa⟩ := List.mem_map.mp ha
        have hcl : w.roleBindings.any (fun y => y.Name == roleName &&
            y.Namespace == cfg.SecretNamespace) = true := by
          apply List.any_eq_true.mpr
          refine ⟨x, hx, ?_⟩
          have h1 := congrArg Prod.fst hxa
          have h2 := congrArg Prod.snd hxa
          simp only at h1 h2
          simp [h1, h2, desiredRoleBinding]
        rw [hclash] at hcl
        exact Bool.noConfusion hcl
      · refine ⟨desiredRoleBinding cfg cr roleName, ?_⟩
        rw [List.filter_append]
        have e1 : w.roleBindings.filter (fun b =>
            matchesOptions b.Labels b.Namespace (crOptions cr.Hash)) = [] := hb
        rw [e1, List.filter_cons, e2 cr.Hash]
        simp
      · intro h' hne
        rw [List.filter_append, List.filter_cons, e2 h']
        have hne' : (cr.Hash == h') = false :=
          beq_eq_false_iff_ne.mpr (fun hc => hne hc.symm)
        rw [hne']
        simp only [Bool.false_and, Bool.false_eq_true, if_false, List.filter_nil,
          List.append_nil]
  | cons b0 rest =>
    have hkeep := head_keepRB w cr.Hash b0 rest hWFb hb
    rw [ensureRoleBinding_existing cfg ow cr roleName w b0 rest hf hb hkeep]
    dsimp only [bindingsFor]
    refine ⟨hf, rfl, rfl, ?_, ?_, ?_⟩
    · rw [keys_map_replaceRB (removeNamedRB rest w.roleBindings) b0
        { b0 with Subjects := (desiredRoleBinding cfg cr roleName).Subjects,
                  RoleRef := (desiredRoleBinding cfg cr roleName).RoleRef } rfl rfl]
      rw [removeNamedRB_eq_filter]
      exact ((List.filter_sublist w.roleBindings).map _).nodup hWFb
    · exact ⟨{ b0 with Subjects := (desiredRoleBinding cfg cr roleName).Subjects,
                       RoleRef := (desiredRoleBinding cfg cr roleName).RoleRef },
        dedup_singletonRB w cr.Hash b0
          { b0 with Subjects := (desiredRoleBinding cfg cr roleName).Subjects,
                    RoleRef := (desiredRoleBinding cfg cr roleName).RoleRef }
          rest rfl rfl hWFb hb⟩
    · intro h' hne
      exact dedup_frameRB w cr.Hash b0
        { b0 with Subjects := (desiredRoleBinding cfg cr roleName).Subjects,
                  RoleRef := (desiredRoleBinding cfg cr roleName).RoleRef }
        rest rfl rfl hWFb hb h' hne

/-- Postcondition of the per-target convergence loop with no failure
injection: on success the state is failure-free and well formed, the
ingresses are untouched, every processed target's queries are singletons,
and queries for hashes outside the processed set are unchanged. -/
theorem ensureAll_post (cfg : Config) (ow : Ingress)
    (hcfg : cfg.SecretNamespace = OpenShiftConfigNamespace) :
    ∀ (todo : List aggregatedComponentRoute) (w : World),
    w.failures = [] → w.WF →
    (ensureAll cfg ow todo w).2.2 = .ok () →
    (ensureAll cfg ow todo w).1.failures = [] ∧
    (ensureAll cfg ow todo w).1.ingresses = w.ingresses ∧
    (ensureAll cfg ow todo w).1.WF ∧
    (∀ cr ∈ todo, (∃ r, rolesFor (ensureAll cfg ow todo w).1 cr.Hash = [r]) ∧
      (∃ b, bindingsFor (ensureAll cfg ow todo w).1 cr.Hash = [b])) ∧
    (∀ h', (todo.all (fun c => !(c.Hash == h'))) = true →
      rolesFor (ensureAll cfg ow todo w).1 h' = rolesFor w h' ∧
      bindingsFor (ensureAll cfg ow todo w).1 h' = bindingsFor w h') := by
  intro todo
  induction todo with
  | nil =>
    intro w hf hWF hok
    refine ⟨hf, rfl, hWF, ?_, ?_⟩
    · intro cr hcr
      exact absurd hcr (List.not_mem_nil cr)
    · intro h' hall
      exact ⟨rfl, rfl⟩
  | cons cr rest ih =>
    intro w hf hWF hok
    cases hp : (ensureServiceCertKeyPairSecretRole cfg ow cr w).2.2 with
    | error e =>
      exfalso
      simp only [ensureAll, hp] at hok
      exact Except.noConfusion hok
    | ok roleName =>
      obtain ⟨hf1, hing1, hrb1, hwfr1, ⟨r1, hr1⟩, hframe1⟩ :=
        ensureRole_post cfg ow cr w hf hWF.1 hcfg ⟨roleName, hp⟩
      have hwfb1 : (((ensureServiceCertKeyPairSecretRole cfg ow cr w).1).roleBindings.map
          (fun x => (x.Name, x.Namespace))).Nodup := by
        rw [hrb1]; exact hWF.2
      cases hq : (ensureServiceCertKeyPairSecretRoleBinding cfg ow cr roleName
          (ensureServiceCertKeyPairSecretRole cfg ow cr w).1).2.2 with
      | error e =>
        exfalso
        simp only [ensureAll, hp, hq] at hok
        exact Except.noConfusion hok
      | ok u =>
        cases u
        obtain ⟨hf2, hing2, hrl2, hwfb2, ⟨b1, hb1⟩, hframe2⟩ :=
          ensureRoleBinding_post cfg ow cr roleName
            (ensureServiceCertKeyPairSecretRole cfg ow cr w).1 hf1 hwfb1 hcfg hq
        have hWF2 : ((ensureServiceCertKeyPairSecretRoleBinding cfg ow cr roleName
            (ensureServiceCertKeyPairSecretRole cfg ow cr w).1).1).WF := by
          refine ⟨?_, hwfb2⟩
          rw [hrl2]; exact hwfr1
        simp only [ensureAll, hp, hq] at hok ⊢
        obtain ⟨ihf, ihing, ihWF, ihsingles, ihframe⟩ :=
          ih (ensureServiceCertKeyPairSecretRoleBinding cfg ow cr roleName
            (ensureServiceCertKeyPairSecretRole cfg ow cr w).1).1 hf2 hWF2 hok
        have hr2 : rolesFor (ensureServiceCertKeyPairSecretRoleBinding cfg ow cr roleName
            (ensureServiceCertKeyPairSecretRole cfg ow cr w).1).1 cr.Hash = [r1] := by
          rw [rolesFor_congr _ (ensureServiceCertKeyPairSecretRole cfg ow cr w).1
            cr.Hash hrl2]
          exact hr1
        refine ⟨ihf, ?_, ihWF, ?_, ?_⟩
        · rw [ihing, hing2, hing1]
        · intro c hc
          rcases List.mem_cons.mp hc with hceq | hcmem
          · subst hceq
            by_cases hcase : (rest.all (fun x => !(x.Hash == c.Hash))) = true
            · obtain ⟨hfr, hfb⟩ := ihframe c.Hash hcase
              exact ⟨⟨r1, by rw [hfr]; exact hr2⟩, ⟨b1, by rw [hfb]; exact hb1⟩⟩
            · have hfalse : rest.all (fun x => !(x.Hash == c.Hash)) = false :=
                Bool.eq_false_iff.mpr hcase
              have hnot : ¬ ∀ x ∈ rest, (!(x.Hash == c.Hash)) = true :=
                fun hallx => hcase (List.all_eq_true.mpr hallx)
              push_neg at hnot
              obtain ⟨c', hc', hcc⟩ := hnot
              have hhash : c'.Hash = c.Hash := by
                simpa using hcc
              have := ihsingles c' hc'
              rw [hhash] at this
              exact this
          · exact ihsingles c hcmem
        · intro h' hall
          rw [List.all_cons, Bool.and_eq_true] at hall
          obtain ⟨hcr', hrest'⟩ := hall
          have hne : h' ≠ cr.Hash := by
            intro hc
            subst hc
            simp at hcr'
          obtain ⟨ifr, ifb⟩ := ihframe h' hrest'
          refine ⟨?_, ?_⟩
          · rw [ifr, rolesFor_congr _ (ensureServiceCertKeyPairSecretRole cfg ow cr w).1
              h' hrl2]
            exact hframe1 h' hne
          · rw [ifb, hframe2 h' hne]
            exact bindingsFor_congr _ w h' hrb1

/-- An object matching a target's correlation-label query whose hash is
active is not an orphan. -/
theorem active_not_orphaned (active : List String) (h : String)
    (labels : List (String × String)) (ns : String)
    (hm : matchesOptions labels ns (crOptions h) = true) (hin : h ∈ active) :
    orphaned active labels ns = false := by
  rw [matchesOptions_crOptions, Bool.and_eq_true] at hm
  have hl := beq_iff_eq.mp hm.1
  unfold orphaned staleItem
  rw [hl]
  dsimp only
  have hc : active.contains h = true := List.elem_iff.mpr hin
  rw [hc, Bool.not_true, Bool.and_false]

/-- Garbage collection run in a failure-free, well-formed state in which
every active target's queries are singletons: it succeeds, leaves the
ingresses untouched, and leaves the state `Ready`. -/
theorem cleanup_ready (crs : List aggregatedComponentRoute) (w : World)
    (hf : w.failures = []) (hWF : w.WF)
    (hsingleR : ∀ cr ∈ crs, ∃ r, rolesFor w cr.Hash = [r])
    (hsingleB : ∀ cr ∈ crs, ∃ b, bindingsFor w cr.Hash = [b]) :
    Ready crs (cleanupOrphanedResources crs w).1 ∧
    (cleanupOrphanedResources crs w).1.ingresses = w.ingresses ∧
    (cleanupOrphanedResources crs w).2.2 = .ok () := by
  rw [cleanup_spec crs w hf hWF]
  dsimp only [rolesFor, bindingsFor]
  refine ⟨⟨hf, ?_, ?_, ?_, ?_, ?_, ?_⟩, rfl, rfl⟩
  · exact ((List.filter_sublist w.roles).map _).nodup hWF.1
  · exact ((List.filter_sublist w.roleBindings).map _).nodup hWF.2
  · intro cr hcr
    obtain ⟨r, hr⟩ := hsingleR cr hcr
    refine ⟨r, ?_⟩
    show ((w.roles.filter (fun x =>
        !(orphaned (crs.map (fun c => c.Hash)) x.Labels x.Namespace))).filter
      (fun x => matchesOptions x.Labels x.Namespace (crOptions cr.Hash))) = [r]
    rw [filter_swap]
    rw [show w.roles.filter (fun x =>
        matchesOptions x.Labels x.Namespace (crOptions cr.Hash)) = [r] from hr]
    have hrm : matchesOptions r.Labels r.Namespace (crOptions cr.Hash) = true :=
      (rolesFor_mem w cr.Hash r (by rw [hr]; exact List.mem_cons_self r [])).2
    have hno : orphaned (crs.map (fun c => c.Hash)) r.Labels r.Namespace = false :=
      active_not_orphaned (crs.map (fun c => c.Hash)) cr.Hash r.Labels r.Namespace
        hrm (List.mem_map_of_mem _ hcr)
    simp [hno]
  · intro cr hcr
    obtain ⟨b, hb⟩ := hsingleB cr hcr
    refine ⟨b, ?_⟩
    show ((w.roleBindings.filter (fun x =>
        !(orphaned (crs.map (fun c => c.Hash)) x.Labels x.Namespace))).filter
      (fun x => matchesOptions x.Labels x.Namespace (crOptions cr.Hash))) = [b]
    rw [filter_swap]
    rw [show w.roleBindings.filter (fun x =>
        matchesOptions x.Labels x.Namespace (crOptions cr.Hash)) = [b] from hb]
    have hbm : matchesOptions b.Labels b.Namespace (crOptions cr.Hash) = true :=
      (bindingsFor_mem w cr.Hash b (by rw [hb]; exact List.mem_cons_self b [])).2
    have hno : orphaned (crs.map (fun c => c.Hash)) b.Labels b.Namespace = false :=
      active_not_orphaned (crs.map (fun c => c.Hash)) cr.Hash b.Labels b.Namespace
        hbm (List.mem_map_of_mem _ hcr)
    simp [hno]
  · intro x hx
    have hxf : x ∈ w.roles.filter (fun r =>
        !(orphaned (crs.map (fun c => c.Hash)) r.Labels r.Namespace)) := hx
    have := (List.mem_filter.mp hxf).2
    simpa using this
  · intro x hx
    have hxf : x ∈ w.roleBindings.filter (fun b =>
        !(orphaned (crs.map (fun c => c.Hash)) b.Labels b.Namespace)) := hx
    have := (List.mem_filter.mp hxf).2
    simpa using this

/-- Shape of a fully successful reconciliation pass: the fetch succeeds,
the per-target loop succeeds and the garbage collection succeeds, so the
run reports success with no requeue and its trace is the fetch followed by
the loop's and the collector's traces. -/
theorem Reconcile_ok_shape (cfg : Config) (req : String) (w : World)
    (ingress : Ingress) (crs : List aggregatedComponentRoute)
    (hg : getIngress w req = (w.step, .ok ingress))
    (hcrs : crs = intersectingComponentRoutes ingress.Spec.ComponentRoutes
      ingress.Status.ComponentRoutes)
    (hpe : (ensureAll cfg ingress crs w.step).2.2 = .ok ())
    (hcl : (cleanupOrphanedResources crs
      (ensureAll cfg ingress crs w.step).1).2.2 = .ok ()) :
    Reconcile cfg req w =
      ((cleanupOrphanedResources crs (ensureAll cfg ingress crs w.step).1).1,
       Op.getIngress req :: ((ensureAll cfg ingress crs w.step).2.1 ++
         (cleanupOrphanedResources crs (ensureAll cfg ingress crs w.step).1).2.1),
       ⟨false⟩, none) := by
  subst hcrs
  simp only [Reconcile, hg, hpe, hcl]
  rfl

/-- A reconciliation started in a `Ready` state (with the request's
ingress present) succeeds and issues no create or delete call. -/
theorem run2_clean (cfg : Config) (req : String) (F : World) (ingress : Ingress)
    (crs : List aggregatedComponentRoute)
    (hcrs : crs = intersectingComponentRoutes ingress.Spec.ComponentRoutes
      ingress.Status.ComponentRoutes)
    (hfind : F.ingresses.find? (fun i => i.Name == req) = some ingress)
    (hR : Ready crs F) :
    ((Reconcile cfg req F).2.1.all (fun op => !(op.isCreateOrDelete))) = true ∧
    (Reconcile cfg req F).2.2.2 = none := by
  have hg2 : getIngress F req = (F.step, .ok ingress) := by
    simp [getIngress, nextFailure_none hR.hf, hfind]
  have hRs : Ready crs F.step :=
    ⟨hR.hf, hR.wfR, hR.wfB, hR.singleR, hR.singleB, hR.noorphR, hR.noorphB⟩
  obtain ⟨hok2, hall2, hR2, hing2⟩ :=
    ensureAll_run2 cfg ingress crs crs F.step (fun c hc => hc) hRs
  have hWF2 : (ensureAll cfg ingress crs F.step).1.WF := ⟨hR2.wfR, hR2.wfB⟩
  have hclspec := cleanup_spec crs (ensureAll cfg ingress crs F.step).1 hR2.hf hWF2
  have hfrR : (ensureAll cfg ingress crs F.step).1.roles.filter (fun r =>
      orphaned (crs.map (fun cr => cr.Hash)) r.Labels r.Namespace) = [] :=
    List.filter_eq_nil.mpr (fun x hx => by simp [hR2.noorphR x hx])
  have hfrB : (ensureAll cfg ingress crs F.step).1.roleBindings.filter (fun b =>
      orphaned (crs.map (fun cr => cr.Hash)) b.Labels b.Namespace) = [] :=
    List.filter_eq_nil.mpr (fun x hx => by simp [hR2.noorphB x hx])
  have hcl2 : (cleanupOrphanedResources crs
      (ensureAll cfg ingress crs F.step).1).2.2 = .ok () := by
    rw [hclspec]
  have hclops : (cleanupOrphanedResources crs
      (ensureAll cfg ingress crs F.step).1).2.1 =
      [Op.listRoles allComponentRouteResources,
       Op.listRoleBindings allComponentRouteResources] := by
    rw [hclspec]
    dsimp only
    rw [hfrR, hfrB]
    rfl
  rw [Reconcile_ok_shape cfg req F ingress crs hg2 hcrs hok2 hcl2]
  dsimp only
  refine ⟨?_, rfl⟩
  rw [List.all_cons, List.all_append, hall2, hclops]
  rfl

/-- C2 (amended): from a failure-free, well-formed collaborator state, if
one reconciliation succeeds, the immediately following reconciliation of
the same request also succeeds and issues no create and no delete call:
its trace holds only reads and unconditional updates of the objects the
first run converged. -/
theorem C2_amended (cfg : Config) (req : String) (w : World)
    (hcfg : cfg.SecretNamespace = OpenShiftConfigNamespace)
    (hf : w.failures = []) (hWF : w.WF)
    (hok : (Reconcile cfg req w).2.2.2 = none) :
    ((Reconcile cfg req (Reconcile cfg req w).1).2.1.all
      (fun op => !(op.isCreateOrDelete))) = true ∧
    (Reconcile cfg req (Reconcile cfg req w).1).2.2.2 = none := by
  cases hfind : w.ingresses.find? (fun i => i.Name == req) with
  | none =>
    have hg : getIngress w req = (w.step, .error .notFound) := by
      simp [getIngress, nextFailure_none hf, hfind]
    have hrun1 : Reconcile cfg req w = (w.step, [Op.getIngress req], ⟨false⟩, none) := by
      simp only [Reconcile, hg]
      rfl
    rw [hrun1]
    dsimp only
    have hf1 : (World.step w).failures = [] := hf
    have hfind2 : (World.step w).ingresses.find? (fun i => i.Name == req) = none := hfind
    have hg2 : getIngress w.step req = (w.step.step, .error .notFound) := by
      simp [getIngress, nextFailure_none hf1, hfind2]
    have hrun2 : Reconcile cfg req w.step =
        (w.step.step, [Op.getIngress req], ⟨false⟩, none) := by
      simp only [Reconcile, hg2]
      rfl
    rw [hrun2]
    exact ⟨rfl, rfl⟩
  | some ingress =>
    have hg : getIngress w req = (w.step, .ok ingress) := by
      simp [getIngress, nextFailure_none hf, hfind]
    have hf1 : (World.step w).failures = [] := hf
    have hWF1 : (World.step w).WF := hWF
    cases hpe : (ensureAll cfg ingress (intersectingComponentRoutes
        ingress.Spec.ComponentRoutes ingress.Status.ComponentRoutes)
        (World.step w)).2.2 with
    | error e =>
      exfalso
      simp only [Reconcile, hg, hpe] at hok
      exact Option.noConfusion hok
    | ok u =>
      cases u
      obtain ⟨hfE, hingE, hWFE, hsingles, hframe⟩ :=
        ensureAll_post cfg ingress hcfg (intersectingComponentRoutes
          ingress.Spec.ComponentRoutes ingress.Status.ComponentRoutes)
          (World.step w) hf1 hWF1 hpe
      obtain ⟨hReadyF, hingF, hclok⟩ :=
        cleanup_ready (intersectingComponentRoutes ingress.Spec.ComponentRoutes
            ingress.Status.ComponentRoutes)
          (ensureAll cfg ingress (intersectingComponentRoutes
            ingress.Spec.ComponentRoutes ingress.Status.ComponentRoutes)
            (World.step w)).1
          hfE hWFE (fun cr hcr => (hsingles cr hcr).1)
          (fun cr hcr => (hsingles cr hcr).2)
      have hrun1 := Reconcile_ok_shape cfg req w ingress
        (intersectingComponentRoutes ingress.Spec.ComponentRoutes
          ingress.Status.ComponentRoutes) hg rfl hpe hclok
      rw [hrun1]
      dsimp only
      apply run2_clean cfg req _ ingress
        (intersectingComponentRoutes ingress.Spec.ComponentRoutes
          ingress.Status.ComponentRoutes) rfl ?_ hReadyF
      rw [hingF, hingE]
      exact hfind

theorem C2_witness :
    cfgOC.SecretNamespace = OpenShiftConfigNamespace ∧
    w0.failures = [] ∧ w0.WF ∧
    (Reconcile cfgOC "cluster" w0).2.2.2 = none ∧
    ((Reconcile cfgOC "cluster" (Reconcile cfgOC "cluster" w0).1).2.1.all
      (fun op => !(op.isCreateOrDelete))) = true ∧
    (Reconcile cfgOC "cluster" (Reconcile cfgOC "cluster" w0).1).2.2.2 = none :=
  ⟨rfl, rfl, by decide, rfl,
   (C2_amended cfgOC "cluster" w0 rfl rfl (by decide) rfl).1,
   (C2_amended cfgOC "cluster" w0 rfl rfl (by decide) rfl).2⟩

/-- C4: (role general part) when the correlation-label list returns more
than one role, convergence keeps the first listed item as canonical —
returning its name after overwriting its rules — and deletes every other
listed item, issuing exactly one delete call per duplicate; (binding
general part) likewise for role bindings: the first listed binding is kept
(its subjects and role reference overwritten), every other listed binding
is deleted; (concrete parts) a `NotFound` on deleting a duplicate role or
a duplicate binding is not treated as an error: with a `NotFound` injected
on one duplicate's delete, convergence still succeeds and still issues all
delete calls. -/
theorem C4_duplicate_self_healing :
    (∀ (cfg : Config) (ow : Ingress) (cr : aggregatedComponentRoute) (w : World)
       (r0 r1 : Role) (rest : List Role),
      w.failures = [] → w.WF →
      rolesFor w cr.Hash = r0 :: r1 :: rest →
      ensureServiceCertKeyPairSecretRole cfg ow cr w =
        ({ w with callCount := w.callCount + 1 + (r1 :: rest).length + 1,
                  roles := (removeNamed (r1 :: rest) w.roles).map (fun x =>
                    if x.Name == r0.Name && x.Namespace == r0.Namespace then
                      { r0 with Rules := (desiredRole cfg cr).Rules } else x) },
         Op.listRoles (componentRouteResources cr) ::
           (r1 :: rest).map (fun x => Op.deleteRole x.Name x.Namespace) ++
             [Op.updateRole { r0 with Rules := (desiredRole cfg cr).Rules }],
         .ok r0.Name)) ∧
    (∀ (cfg : Config) (ow : Ingress) (cr : aggregatedComponentRoute)
       (roleName : String) (w : World) (b0 b1 : RoleBinding)
       (rest : List RoleBinding),
      w.failures = [] → w.WF →
      bindingsFor w cr.Hash = b0 :: b1 :: rest →
      ensureServiceCertKeyPairSecretRoleBinding cfg ow cr roleName w =
        ({ w with callCount := w.callCount + 1 + (b1 :: rest).length + 1,
                  roleBindings := (removeNamedRB (b1 :: rest) w.roleBindings).map
                    (fun x =>
                      if x.Name == b0.Name && x.Namespace == b0.Namespace then
                        { b0 with
                            Subjects := (desiredRoleBinding cfg cr roleName).Subjects,
                            RoleRef := (desiredRoleBinding cfg cr roleName).RoleRef }
                      else x) },
         Op.listRoleBindings (componentRouteResources cr) ::
           (b1 :: rest).map (fun x => Op.deleteRoleBinding x.Name x.Namespace) ++
             [Op.updateRoleBinding
               { b0 with
                   Subjects := (desiredRoleBinding cfg cr roleName).Subjects,
                   RoleRef := (desiredRoleBinding cfg cr roleName).RoleRef }],
         .ok ())) ∧
    ((ensureServiceCertKeyPairSecretRole cfgOC ingEmpty aggFoo wDups).2.2 =
        .ok "foo-0" ∧
      (ensureServiceCertKeyPairSecretRole cfgOC ingEmpty aggFoo wDups).2.1 =
        [Op.listRoles (componentRouteResources aggFoo),
         Op.deleteRole "foo-1" "openshift-config",
         Op.deleteRole "foo-2" "openshift-config",
         Op.updateRole { roleDupA with Rules := (desiredRole cfgOC aggFoo).Rules }]) ∧
    ((ensureServiceCertKeyPairSecretRoleBinding cfgOC ingEmpty aggFoo "foo-0"
        wDupsB).2.2 = .ok () ∧
      (ensureServiceCertKeyPairSecretRoleBinding cfgOC ingEmpty aggFoo "foo-0"
        wDupsB).2.1 =
        [Op.listRoleBindings (componentRouteResources aggFoo),
         Op.deleteRoleBinding "foo-1" "openshift-config",
         Op.deleteRoleBinding "foo-2" "openshift-config",
         Op.updateRoleBinding
           { bindingDupA with
               Subjects := (desiredRoleBinding cfgOC aggFoo "foo-0").Subjects,
               RoleRef := (desiredRoleBinding cfgOC aggFoo "foo-0").RoleRef }]) := by
  refine ⟨?_, ?_, ⟨rfl, rfl⟩, ⟨rfl, rfl⟩⟩
  · intro cfg ow cr w r0 r1 rest hf hWF hr
    exact ensureRole_existing cfg ow cr w r0 (r1 :: rest) hf hr
      (head_keep w cr.Hash r0 (r1 :: rest) hWF.1 hr)
  · intro cfg ow cr roleName w b0 b1 rest hf hWF hb
    exact ensureRoleBinding_existing cfg ow cr roleName w b0 (b1 :: rest) hf hb
      (head_keepRB w cr.Hash b0 (b1 :: rest) hWF.2 hb)

theorem C4_witness :
    (ensureServiceCertKeyPairSecretRole cfgOC ingEmpty aggFoo wDup2 =
      ({ wDup2 with
           callCount := wDup2.callCount + 1 + ([roleDupB] : List Role).length + 1,
           roles := (removeNamed [roleDupB] wDup2.roles).map (fun x =>
             if x.Name == roleDupA.Name && x.Namespace == roleDupA.Namespace then
               { roleDupA with Rules := (desiredRole cfgOC aggFoo).Rules } else x) },
       Op.listRoles (componentRouteResources aggFoo) ::
         ([roleDupB] : List Role).map (fun x => Op.deleteRole x.Name x.Namespace) ++
           [Op.updateRole { roleDupA with Rules := (desiredRole cfgOC aggFoo).Rules }],
       .ok roleDupA.Name)) ∧
    (ensureServiceCertKeyPairSecretRoleBinding cfgOC ingEmpty aggFoo "foo-0" wDupB2 =
      ({ wDupB2 with
           callCount :=
             wDupB2.callCount + 1 + ([bindingDupB] : List RoleBinding).length + 1,
           roleBindings := (removeNamedRB [bindingDupB] wDupB2.roleBindings).map
             (fun x =>
               if x.Name == bindingDupA.Name && x.Namespace == bindingDupA.Namespace then
                 { bindingDupA with
                     Subjects := (desiredRoleBinding cfgOC aggFoo "foo-0").Subjects,
                     RoleRef := (desiredRoleBinding cfgOC aggFoo "foo-0").RoleRef }
               else x) },
       Op.listRoleBindings (componentRouteResources aggFoo) ::
         ([bindingDupB] : List RoleBinding).map (fun x =>
           Op.deleteRoleBinding x.Name x.Namespace) ++
           [Op.updateRoleBinding
             { bindingDupA with
                 Subjects := (desiredRoleBinding cfgOC aggFoo "foo-0").Subjects,
                 RoleRef := (desiredRoleBinding cfgOC aggFoo "foo-0").RoleRef }],
       .ok ())) :=
  ⟨C4_duplicate_self_healing.1 cfgOC ingEmpty aggFoo wDup2
    roleDupA roleDupB [] rfl (by decide) (by decide),
   C4_duplicate_self_healing.2.1 cfgOC ingEmpty aggFoo "foo-0" wDupB2
    bindingDupA bindingDupB [] rfl (by decide) (by decide)⟩

end ingressroutes
